import Mathlib

/-!
Verification of the DailyNews report-resolution layer.

JavaScript strings are modeled as lists of UTF-16 code units (`Str := List Nat`),
which is the representation the runtime actually operates on (`String.prototype.slice`,
`length`, etc. all act on code units).  Byte buffers are lists of naturals `< 256`.
The slug codec (`Buffer.from(s, "utf8").toString("base64url")` and its inverse) is
modeled by explicit UTF-16 → code point → UTF-8 → base64url conversions below.
-/

set_option maxRecDepth 8000

namespace DailyNews

/-- A JavaScript string: a finite sequence of UTF-16 code units. -/
abbrev Str := List Nat

/-- High-surrogate code unit (U+D800–U+DBFF). -/
def isHighSurrogate (u : Nat) : Bool := 0xD800 ≤ u && u < 0xDC00

/-- Low-surrogate code unit (U+DC00–U+DFFF). -/
def isLowSurrogate (u : Nat) : Bool := 0xDC00 ≤ u && u < 0xE000

/-- Decode UTF-16 code units to Unicode code points.  A lone surrogate decodes to
U+FFFD, mirroring what `Buffer.from(s, "utf8")` does when converting a JS string. -/
def utf16ToCp : List Nat → List Nat
  | [] => []
  | [u] => if isHighSurrogate u || isLowSurrogate u then [0xFFFD] else [u]
  | u :: v :: rest =>
    if isHighSurrogate u then
      if isLowSurrogate v then (0x10000 + (u - 0xD800) * 0x400 + (v - 0xDC00)) :: utf16ToCp rest
      else 0xFFFD :: utf16ToCp (v :: rest)
    else if isLowSurrogate u then 0xFFFD :: utf16ToCp (v :: rest)
    else u :: utf16ToCp (v :: rest)

/-- Encode one code point as UTF-16 code units. -/
def cpToUtf16 (cp : Nat) : List Nat :=
  if cp < 0x10000 then [cp]
  else [0xD800 + (cp - 0x10000) / 0x400, 0xDC00 + (cp - 0x10000) % 0x400]

/-- Encode a sequence of code points as a JS string (UTF-16 code units). -/
def strOfCps (cps : List Nat) : Str := cps.flatMap cpToUtf16

/-- Well-formed UTF-16: every unit is 16-bit, every high surrogate is followed by a
low surrogate, and no stray low surrogate occurs. -/
def wfUtf16 : List Nat → Bool
  | [] => true
  | [u] => !isHighSurrogate u && !isLowSurrogate u && u < 0x10000
  | u :: v :: rest =>
    if isHighSurrogate u then isLowSurrogate v && wfUtf16 rest
    else !isLowSurrogate u && u < 0x10000 && wfUtf16 (v :: rest)

/-- A Unicode scalar value: in range and not a surrogate. -/
def scalarValid (cp : Nat) : Bool := cp < 0x110000 && !(0xD800 ≤ cp && cp < 0xE000)

/-- Convert a Lean string literal into the JS model string (UTF-16 code units). -/
def strU (s : String) : Str := s.data.flatMap (fun c => cpToUtf16 c.toNat)

/-- UTF-8 encoding of a single code point (1-4 bytes). -/
def utf8EncodeCp (cp : Nat) : List Nat :=
  if cp < 0x80 then [cp]
  else if cp < 0x800 then [0xC0 + cp / 64, 0x80 + cp % 64]
  else if cp < 0x10000 then [0xE0 + cp / 4096, 0x80 + cp / 64 % 64, 0x80 + cp % 64]
  else [0xF0 + cp / 262144, 0x80 + cp / 4096 % 64, 0x80 + cp / 64 % 64, 0x80 + cp % 64]

/-- UTF-8 encoding of a code-point sequence. -/
def utf8Encode (cps : List Nat) : List Nat := cps.flatMap utf8EncodeCp

/-- UTF-8 continuation byte. -/
def isCont (b : Nat) : Bool := 0x80 ≤ b && b < 0xC0

/-- One-pass UTF-8 decoding state machine: `need` continuation bytes are still
expected, `acc` holds the bits read so far, and `lo` is the smallest code point the
current sequence may legally produce (the overlong bound).  Invalid input produces
U+FFFD and restarts after the offending byte — a lenient approximation of the
replacement-character behavior of `Buffer.toString("utf8")`; the claims below only
evaluate decoding on valid encodings. -/
def utf8DecodeAux : Nat → Nat → Nat → List Nat → List Nat
  | need, _, _, [] => if need == 0 then [] else [0xFFFD]
  | need, acc, lo, b :: rest =>
    if need == 0 then
      if b < 0x80 then b :: utf8DecodeAux 0 0 0 rest
      else if b < 0xC0 then 0xFFFD :: utf8DecodeAux 0 0 0 rest
      else if b < 0xE0 then utf8DecodeAux 1 (b - 0xC0) 0x80 rest
      else if b < 0xF0 then utf8DecodeAux 2 (b - 0xE0) 0x800 rest
      else if b < 0xF8 then utf8DecodeAux 3 (b - 0xF0) 0x10000 rest
      else 0xFFFD :: utf8DecodeAux 0 0 0 rest
    else if isCont b then
      if need == 1 then
        (if lo ≤ acc * 64 + (b - 0x80) && acc * 64 + (b - 0x80) < 0x110000 &&
            !(0xD800 ≤ acc * 64 + (b - 0x80) && acc * 64 + (b - 0x80) < 0xE000) then
          acc * 64 + (b - 0x80)
        else 0xFFFD) :: utf8DecodeAux 0 0 0 rest
      else utf8DecodeAux (need - 1) (acc * 64 + (b - 0x80)) lo rest
    else 0xFFFD :: utf8DecodeAux 0 0 0 rest

/-- Lenient UTF-8 decoding (bytes to code points). -/
def utf8Decode (bs : List Nat) : List Nat := utf8DecodeAux 0 0 0 bs

/-- Value of a base64 character (given as a code unit); accepts both the url-safe and
the standard alphabet, `none` for everything else.  Node's forgiving base64 decoder
skips input units that are not in the table (padding included). -/
def b64Val (u : Nat) : Option Nat :=
  if 65 ≤ u ∧ u ≤ 90 then some (u - 65)
  else if 97 ≤ u ∧ u ≤ 122 then some (u - 97 + 26)
  else if 48 ≤ u ∧ u ≤ 57 then some (u - 48 + 52)
  else if u = 45 then some 62
  else if u = 95 then some 63
  else if u = 43 then some 62
  else if u = 47 then some 63
  else none

/-- Code unit of sextet `v` in the base64url alphabet. -/
def b64Unit (v : Nat) : Nat :=
  if v < 26 then 65 + v
  else if v < 52 then 97 + (v - 26)
  else if v < 62 then 48 + (v - 52)
  else if v = 62 then 45
  else 95

/-- Bytes to base64 sextets (grouping 3 bytes into 4 sextets, no padding). -/
def encodeSextets : List Nat → List Nat
  | [] => []
  | [b1] => [b1 / 4, b1 % 4 * 16]
  | [b1, b2] => [b1 / 4, b1 % 4 * 16 + b2 / 16, b2 % 16 * 4]
  | b1 :: b2 :: b3 :: rest =>
    b1 / 4 :: (b1 % 4 * 16 + b2 / 16) :: (b2 % 16 * 4 + b3 / 64) :: b3 % 64 :: encodeSextets rest

/-- Base64 sextets back to bytes; a trailing lone sextet contributes no byte and
trailing partial bits are dropped (forgiving decode). -/
def decodeSextets : List Nat → List Nat
  | [] => []
  | [_] => []
  | [s1, s2] => [s1 * 4 + s2 / 16]
  | [s1, s2, s3] => [s1 * 4 + s2 / 16, s2 % 16 * 16 + s3 / 4]
  | s1 :: s2 :: s3 :: s4 :: rest =>
    (s1 * 4 + s2 / 16) :: (s2 % 16 * 16 + s3 / 4) :: (s3 % 4 * 64 + s4) :: decodeSextets rest

/-- `toSlug` from `src/lib/reports.ts`:
`Buffer.from(fileName, "utf8").toString("base64url")`. -/
def toSlug (s : Str) : Str := (encodeSextets (utf8Encode (utf16ToCp s))).map b64Unit

/-- The string produced by `Buffer.from(slug, "base64url").toString("utf8")`. -/
def fromSlugStr (slug : Str) : Str :=
  strOfCps (utf8Decode (decodeSextets (slug.filterMap b64Val)))

/-- `fromSlug` from `src/lib/reports.ts`.  Node's forgiving base64url decoder never
throws, so the `catch` branch returning `null` is unreachable and the result is
always `some`. -/
def fromSlug (slug : Str) : Option Str := some (fromSlugStr slug)

/-! ## String helpers for the resolver (`src/lib/reports.ts`) -/

/-- JS regexp `\s` / `String.prototype.trim` whitespace, as code units. -/
def jsWsU (u : Nat) : Bool :=
  u == 9 || u == 10 || u == 11 || u == 12 || u == 13 || u == 32 || u == 160 || u == 0x1680 ||
  (0x2000 ≤ u && u ≤ 0x200A) || u == 0x2028 || u == 0x2029 || u == 0x202F || u == 0x205F ||
  u == 0x3000 || u == 0xFEFF

/-- `String.prototype.trim`. -/
def jsTrim (s : Str) : Str := ((s.dropWhile jsWsU).reverse.dropWhile jsWsU).reverse

/-- `String.prototype.includes`. -/
def strContains (s pat : Str) : Bool :=
  (List.range (s.length + 1)).any (fun i => pat.isPrefixOf (s.drop i))

/-- ASCII digit code unit. -/
def isDigit (u : Nat) : Bool := 48 ≤ u && u ≤ 57

/-- ASCII lower-casing of a code unit (for case-insensitive regexps). -/
def asciiLower (u : Nat) : Nat := if 65 ≤ u && u ≤ 90 then u + 32 else u

/-- Code-point lexicographic comparison of two JS strings.  This models
`String.prototype.localeCompare`; the real function consults the ICU collator, which
agrees with code-point order in direction for every comparison the claims depend on
(pure ASCII-digit date strings, and CJK text versus ASCII, where CJK collates after
digits just as its code points are larger). -/
def lexOrdU : Str → Str → Ordering
  | [], [] => .eq
  | [], _ :: _ => .lt
  | _ :: _, [] => .gt
  | a :: as, b :: bs => if a < b then .lt else if b < a then .gt else lexOrdU as bs

/-- The number returned by the modeled `localeCompare`. -/
def localeCompareM (a b : Str) : Int :=
  match lexOrdU a b with
  | .lt => -1
  | .eq => 0
  | .gt => 1

/-- `Node path.basename` (posix): drop trailing separators, then keep everything
after the last remaining separator. -/
def basename (s : Str) : Str := ((s.reverse.dropWhile (· == 47)).takeWhile (· != 47)).reverse

/-- `fileName.replace(/\.md$/, "")`. -/
def stripMdSuffix (s : Str) : Str :=
  if (strU ".md").isSuffixOf s then s.take (s.length - 3) else s

/-! ## Channel registry and markers -/

def WECHAT_MARKER : Str := strU "公众号格式"

def MATERIAL_MARKER : Str := strU "素材"

inductive ReportChannel
  | ai
  | crypto
deriving DecidableEq, Repr

/-- `CHANNEL_CONFIG[channel].reportMarker`. -/
def reportMarker : ReportChannel → Str
  | .ai => strU "Karpathy 精选 RSS 日报"
  | .crypto => strU "币圈每日资讯"

/-- `getChannelSearchOrder` from `src/lib/reports.ts`. -/
def getChannelSearchOrder : Option ReportChannel → List ReportChannel
  | some .crypto => [.crypto, .ai]
  | _ => [.ai, .crypto]

/-! ## Filename qualification and dates -/

/-- `isReportLikeMarkdown` from `src/lib/reports.ts`. -/
def isReportLikeMarkdown (fileName : Str) : Bool :=
  (strU ".md").isSuffixOf fileName &&
  !(strContains fileName WECHAT_MARKER) &&
  !(strContains fileName MATERIAL_MARKER)

/-- `matchChannelFileName` from `src/lib/reports.ts`. -/
def matchChannelFileName (fileName : Str) (channel : ReportChannel) : Bool :=
  strContains fileName (reportMarker channel)

def UNKNOWN_DATE : Str := strU "未知日期"

/-- `safeDateFromName`: match the leading-ISO-date regexp (four digits, dash, two
digits, dash, two digits, then optional whitespace and a dash) and return the
captured ten-character date, else the unknown-date sentinel. -/
def safeDateFromName (fileName : Str) : Str :=
  if isDigit (fileName.getD 0 0) && isDigit (fileName.getD 1 0) &&
      isDigit (fileName.getD 2 0) && isDigit (fileName.getD 3 0) &&
      fileName.getD 4 0 == 45 &&
      isDigit (fileName.getD 5 0) && isDigit (fileName.getD 6 0) &&
      fileName.getD 7 0 == 45 &&
      isDigit (fileName.getD 8 0) && isDigit (fileName.getD 9 0) &&
      ((fileName.drop 10).dropWhile jsWsU).headD 0 == 45 then
    fileName.take 10
  else UNKNOWN_DATE

/-- `compareByDateDesc` from `src/lib/reports.ts`, on the `fileName` fields that both
call sites compare. -/
def compareFileDateDesc (fa fb : Str) : Int :=
  let da := safeDateFromName fa
  let db := safeDateFromName fb
  if da ≠ db then localeCompareM db da else localeCompareM fb fa

/-! ## Metadata extraction -/

def digitsToNat (ds : Str) : Nat := ds.foldl (fun acc u => acc * 10 + (u - 48)) 0

/-- Match one of the count regexps at the start of `s`: optionally `**`, then digits,
then (again optionally) `**`, then `\s*`, then the literal tail (compared
case-insensitively, mirroring the `/i` flag). -/
def matchCountAt (strong : Bool) (tailPat : Str) (s : Str) : Option Nat :=
  let s1 : Option Str :=
    if strong then (if (strU "**").isPrefixOf s then some (s.drop 2) else none) else some s
  match s1 with
  | none => none
  | some t =>
    let ds := t.takeWhile isDigit
    if ds.isEmpty then none
    else
      let t2 := t.dropWhile isDigit
      let t3 : Option Str :=
        if strong then (if (strU "**").isPrefixOf t2 then some (t2.drop 2) else none) else some t2
      match t3 with
      | none => none
      | some t4 =>
        if tailPat.isPrefixOf ((t4.dropWhile jsWsU).map asciiLower) then some (digitsToNat ds)
        else none

/-- Left-to-right regexp search: first position where the matcher succeeds. -/
def scanFirst (f : Str → Option Nat) : Str → Option Nat
  | [] => f []
  | u :: rest =>
    match f (u :: rest) with
    | some n => some n
    | none => scanFirst f rest

/-- `extractItemCount`: `/\*\*(\d+)\*\*\s*条 RSS 更新/i` with `/(\d+)\s*条 RSS 更新/i`
as fallback, defaulting to 0. -/
def extractItemCount (text : Str) : Int :=
  match scanFirst (matchCountAt true (strU "条 rss 更新")) text with
  | some n => (n : Int)
  | none =>
    match scanFirst (matchCountAt false (strU "条 rss 更新")) text with
    | some n => (n : Int)
    | none => 0

/-- `extractThemeCount`: the analogous `个核心主题` patterns. -/
def extractThemeCount (text : Str) : Int :=
  match scanFirst (matchCountAt true (strU "个核心主题")) text with
  | some n => (n : Int)
  | none =>
    match scanFirst (matchCountAt false (strU "个核心主题")) text with
    | some n => (n : Int)
    | none => 0

def NO_EXCERPT : Str := strU "暂无摘要。"

/-- `buildExcerpt` from `src/lib/reports.ts`, operating (like the JS string methods it
uses) on UTF-16 code units: split on newlines, trim, drop empties and lines starting
with `[^`, `---`, `#` or `>`, join the first two surviving lines with one space,
delete `*`, `_` and backtick characters, and `slice(0, 160)` code units. -/
def buildExcerpt (text : Str) : Str :=
  let lines := (text.splitOn 10).map jsTrim
  let lines := lines.filter (fun l => !l.isEmpty)
  let lines := lines.filter (fun l => !((strU "[^").isPrefixOf l))
  let lines := lines.filter (fun l => !((strU "---").isPrefixOf l))
  let lines := lines.filter (fun l => !((strU "#").isPrefixOf l))
  let lines := lines.filter (fun l => !((strU ">").isPrefixOf l))
  if lines.isEmpty then NO_EXCERPT
  else
    ((List.intercalate (strU " ") (lines.take 2)).filter
      (fun u => !(u == 42 || u == 95 || u == 96))).take 160

/-! ## URLs -/

/-- Modeled `isValidAbsoluteHttpUrl` (`new URL` + protocol check); abstracted to the
scheme test, which agrees with the WHATWG parser on every URL these claims touch. -/
def isValidAbsoluteHttpUrl (url : Str) : Bool :=
  (strU "http://").isPrefixOf url || (strU "https://").isPrefixOf url

/-- Unreserved characters of `encodeURIComponent`. -/
def isUnreservedUri (u : Nat) : Bool :=
  (48 ≤ u && u ≤ 57) || (65 ≤ u && u ≤ 90) || (97 ≤ u && u ≤ 122) ||
  u == 45 || u == 95 || u == 46 || u == 33 || u == 126 || u == 42 || u == 39 ||
  u == 40 || u == 41

def hexDigitU (n : Nat) : Nat := if n < 10 then 48 + n else 55 + n

/-- `encodeURIComponent`: percent-encode the UTF-8 bytes of every character outside
the unreserved set. -/
def encodeURIComponentM (s : Str) : Str :=
  (utf16ToCp s).flatMap (fun cp =>
    if isUnreservedUri cp then [cp]
    else (utf8EncodeCp cp).flatMap (fun b => [37, hexDigitU (b / 16), hexDigitU (b % 16)]))

def stripTrailingSlashes (s : Str) : Str := (s.reverse.dropWhile (· == 47)).reverse

def stripLeadingSlashes (s : Str) : Str := s.dropWhile (· == 47)

/-- `encodeObjectKey` from `src/lib/reports.ts`. -/
def encodeObjectKey (objectKey : Str) : Str :=
  List.intercalate [47] (((objectKey.splitOn 47).filter (fun p => !p.isEmpty)).map encodeURIComponentM)

/-- `joinUrl` from `src/lib/reports.ts`. -/
def joinUrl (base sfx : Str) : Str :=
  stripTrailingSlashes base ++ [47] ++ encodeObjectKey (stripLeadingSlashes sfx)

/-- `withNoCacheParam`: append `_=<Date.now()>` with `?` or `&`. -/
def withNoCacheParam (url : Str) (nowStr : Str) : Str :=
  url ++ [if url.contains 63 then 38 else 63] ++ strU "_=" ++ nowStr

/-! ## Report records -/

inductive SourceKind
  | oss
  | fsLocal
deriving DecidableEq, Repr

/-- `ReportMetaInternal` from `src/lib/reports.ts`.  Numeric counts are modeled as
integers. -/
structure RMeta where
  slug : Str
  channel : ReportChannel
  title : Str
  date : Str
  fileName : Str
  excerpt : Str
  itemCount : Int
  themeCount : Int
  updatedAt : Str
  source : SourceKind
  contentUrl : Option Str
deriving DecidableEq, Repr

/-- Public `ReportMeta`. -/
structure PubMeta where
  slug : Str
  channel : ReportChannel
  title : Str
  date : Str
  fileName : Str
  excerpt : Str
  itemCount : Int
  themeCount : Int
  updatedAt : Str
deriving DecidableEq, Repr

/-- `ReportDetail`. -/
structure RDetail where
  meta : PubMeta
  content : Str
deriving DecidableEq, Repr

def toPublicMeta (m : RMeta) : PubMeta :=
  { slug := m.slug, channel := m.channel, title := m.title, date := m.date,
    fileName := m.fileName, excerpt := m.excerpt, itemCount := m.itemCount,
    themeCount := m.themeCount, updatedAt := m.updatedAt }

/-- One item of the remote index JSON (`payload.items[i]`).  A field is `none` when it
is absent or not of the type the code tests for (`typeof x === "string"` checks);
numeric fields hold the already-coerced `Number(x)` when finite. -/
structure RawItem where
  fileName : Option Str
  objectName : Option Str
  title : Option Str
  excerpt : Option Str
  date : Option Str
  updatedAt : Option Str
  itemCount : Option Int
  themeCount : Option Int
  url : Option Str
deriving DecidableEq, Repr

/-- `OssRuntimeConfig` (the field `prefixStr` models `prefix`). -/
structure OssRuntimeConfig where
  channel : ReportChannel
  prefixStr : Str
  indexUrl : Str
  publicBaseUrl : Str
  bucketBaseUrl : Str
deriving DecidableEq, Repr

/-- Outcome of fetching the remote index document. -/
inductive FetchIndexResult
  | netError
  | badStatus
  | badJson
  | ok (items : List (Option RawItem))
deriving DecidableEq, Repr

/-- A file of one local outputs directory: `readdir` name plus the content and mtime
that reads during listing observe. -/
structure LocalFile where
  name : Str
  content : Str
  mtime : Str
deriving DecidableEq, Repr

/-- The ambient world of one request: configuration resolution (environment
variables / `env.py`), remote fetches, and the two local outputs directories
(`OUTPUTS_DIRS`), with reads at detail time allowed to behave differently from the
listing. -/
structure Env where
  ossConfig : ReportChannel → Option OssRuntimeConfig
  fetchIndex : Str → FetchIndexResult
  fetchContent : Str → Option Str
  dir0 : List LocalFile
  dir1 : List LocalFile
  read0 : Str → Option Str
  read1 : Str → Option Str
  nowQueryStr : Str

/-! ## Listing reports -/

def toNumberSafe (v : Option Int) : Int := v.getD 0

/-- `resolveContentUrl` from `src/lib/reports.ts`. -/
def resolveContentUrl (item : RawItem) (config : OssRuntimeConfig) (fileName : Str) :
    Option Str :=
  let rawUrl := (item.url.map jsTrim).getD []
  if !rawUrl.isEmpty && isValidAbsoluteHttpUrl rawUrl then some rawUrl
  else
    let objectName := (item.objectName.map jsTrim).getD []
    if !objectName.isEmpty && !config.publicBaseUrl.isEmpty then
      some (joinUrl config.publicBaseUrl objectName)
    else if !objectName.isEmpty && !config.bucketBaseUrl.isEmpty then
      some (joinUrl config.bucketBaseUrl objectName)
    else
      let fallbackObject := config.prefixStr ++ [47] ++ fileName
      if !config.publicBaseUrl.isEmpty then some (joinUrl config.publicBaseUrl fallbackObject)
      else if !config.bucketBaseUrl.isEmpty then some (joinUrl config.bucketBaseUrl fallbackObject)
      else none

/-- The body of the `for (const raw of rawItems)` loop of `getAllOssReportsInternal`:
skip non-objects, derive the filename, skip disqualified names, build the summary. -/
def ossItemOfRaw (channel : ReportChannel) (config : OssRuntimeConfig)
    (raw : Option RawItem) : Option RMeta :=
  match raw with
  | none => none
  | some entry =>
    let objBranch : Str :=
      match entry.objectName with
      | some o => basename (jsTrim o)
      | none => []
    let fileNameRaw : Str :=
      match entry.fileName with
      | some s => if (jsTrim s).isEmpty then objBranch else jsTrim s
      | none => objBranch
    let fileName := basename fileNameRaw
    if fileName.isEmpty || !isReportLikeMarkdown fileName then none
    else
      let titleRaw := (entry.title.map jsTrim).getD []
      let excerptRaw := (entry.excerpt.map jsTrim).getD []
      let updatedAtRaw := (entry.updatedAt.map jsTrim).getD []
      let dateRaw := (entry.date.map jsTrim).getD []
      some {
        slug := toSlug fileName
        channel := channel
        title := if titleRaw.isEmpty then stripMdSuffix fileName else titleRaw
        date := if dateRaw.isEmpty then safeDateFromName fileName else dateRaw
        fileName := fileName
        excerpt := if excerptRaw.isEmpty then NO_EXCERPT else excerptRaw
        itemCount := toNumberSafe entry.itemCount
        themeCount := toNumberSafe entry.themeCount
        updatedAt := updatedAtRaw
        source := .oss
        contentUrl := resolveContentUrl entry config fileName
      }

/-- The comparator of both `sort` call sites as a relation (`a` may stay before `b`
when the JS comparator returns a non-positive number).  `Array.prototype.sort` is a
stable sort, and for a consistent comparator every stable sort computes the same
list, so it is modeled by the stable `List.insertionSort`. -/
abbrev metaR (a b : RMeta) : Prop := compareFileDateDesc a.fileName b.fileName ≤ 0

/-- The same sort relation on the local directory files (compared by name). -/
abbrev localFileR (a b : LocalFile) : Prop := compareFileDateDesc a.name b.name ≤ 0

/-- `getAllOssReportsInternal` (with the configuration already resolved): any fetch
failure, non-OK status or malformed JSON yields zero reports. -/
def getAllOssReportsInternal (channel : ReportChannel) (config : OssRuntimeConfig)
    (env : Env) : List RMeta :=
  match env.fetchIndex (withNoCacheParam config.indexUrl env.nowQueryStr) with
  | .ok rawItems => List.insertionSort metaR (rawItems.filterMap (ossItemOfRaw channel config))
  | _ => []

/-- `buildLocalMeta`. -/
def buildLocalMeta (channel : ReportChannel) (f : LocalFile) : RMeta :=
  let firstLine := jsTrim ((f.content.splitOn 10).headD [])
  { slug := toSlug f.name
    channel := channel
    title := if firstLine.isEmpty then stripMdSuffix f.name else firstLine
    date := safeDateFromName f.name
    fileName := f.name
    excerpt := buildExcerpt f.content
    itemCount := extractItemCount f.content
    themeCount := extractThemeCount f.content
    updatedAt := f.mtime
    source := .fsLocal
    contentUrl := none }

/-- First-directory-wins deduplication of the `filePathMap` build. -/
def dedupByName (seen : List Str) : List LocalFile → List LocalFile
  | [] => []
  | f :: rest =>
    if seen.contains f.name then dedupByName seen rest
    else f :: dedupByName (f.name :: seen) rest

/-- `getAllLocalReportsInternal`. -/
def getAllLocalReportsInternal (channel : ReportChannel) (env : Env) : List RMeta :=
  let files := dedupByName [] (env.dir0 ++ env.dir1)
  let files := files.filter (fun f =>
    isReportLikeMarkdown f.name && matchChannelFileName f.name channel)
  (List.insertionSort localFileR files).map (buildLocalMeta channel)

/-- `getAllReports`: the remote index is used exactly when a configuration resolves;
only without one is the local scan consulted. -/
def getAllReports (env : Env) (channel : ReportChannel) : List PubMeta :=
  match env.ossConfig channel with
  | some config => (getAllOssReportsInternal channel config env).map toPublicMeta
  | none => (getAllLocalReportsInternal channel env).map toPublicMeta

/-! ## Resolving one report -/

/-- `findReportMetaInChannel`. -/
def findReportMetaInChannel (env : Env) (fileName : Str) (channel : ReportChannel) :
    Option RMeta :=
  match env.ossConfig channel with
  | some config =>
    (getAllOssReportsInternal channel config env).find? (fun it => it.fileName == fileName)
  | none =>
    (getAllLocalReportsInternal channel env).find? (fun it => it.fileName == fileName)

/-- `readLocalReportContent`: try the outputs directories in order. -/
def readLocalReportContent (env : Env) (fileName : Str) : Option Str :=
  match env.read0 fileName with
  | some c => some c
  | none => env.read1 fileName

/-- `toReportDetail`: remote summaries fetch their content URL (failing on a missing
or invalid URL, a failed fetch, or a non-OK status); local summaries re-read the
file, and a falsy (empty or missing) content is a failure. -/
def toReportDetail (env : Env) (meta : RMeta) : Option RDetail :=
  match meta.source with
  | .oss =>
    match meta.contentUrl with
    | none => none
    | some u =>
      if !isValidAbsoluteHttpUrl u then none
      else
        match env.fetchContent (withNoCacheParam u env.nowQueryStr) with
        | none => none
        | some content => some { meta := toPublicMeta meta, content := content }
  | .fsLocal =>
    match readLocalReportContent env meta.fileName with
    | none => none
    | some content =>
      if content.isEmpty then none
      else some { meta := toPublicMeta meta, content := content }

/-- The `for (const channel of getChannelSearchOrder(...))` loop of
`getReportBySlug`: skip a channel when the summary is missing or its content cannot
be produced. -/
def searchChannels (env : Env) (fileName : Str) : List ReportChannel → Option RDetail
  | [] => none
  | c :: rest =>
    match findReportMetaInChannel env fileName c with
    | none => searchChannels env fileName rest
    | some meta =>
      match toReportDetail env meta with
      | some d => some d
      | none => searchChannels env fileName rest

/-- `getReportBySlug`. -/
def getReportBySlug (env : Env) (slug : Str) (preferred : Option ReportChannel) :
    Option RDetail :=
  match fromSlug slug with
  | none => none
  | some fileName =>
    if fileName.isEmpty || !(basename fileName == fileName) || !isReportLikeMarkdown fileName then
      none
    else searchChannels env fileName (getChannelSearchOrder preferred)

/-! ## Object store client (`src/lib/oss.ts`) and the DELETE route -/

/-- `OssConfig` from the OSS client (the field `prefixStr` models `prefix`). -/
structure OssConfig where
  accessKeyId : Str
  accessKeySecret : Str
  bucketName : Str
  endpoint : Str
  publicBaseUrl : Str
  prefixStr : Str
deriving DecidableEq, Repr

/-- `normalizeEndpoint`: strip one leading http(s) scheme, trailing slashes, trim. -/
def normalizeEndpoint (endpoint : Str) : Str :=
  let t :=
    if (strU "https://").isPrefixOf endpoint then endpoint.drop 8
    else if (strU "http://").isPrefixOf endpoint then endpoint.drop 7
    else endpoint
  jsTrim (stripTrailingSlashes t)

/-- `isOssConfigured`. -/
def isOssConfigured (c : OssConfig) : Bool :=
  !c.accessKeyId.isEmpty && !c.accessKeySecret.isEmpty && !c.bucketName.isEmpty &&
  !(normalizeEndpoint c.endpoint).isEmpty

/-- `canonicalObjectName`: strip leading slashes, trim. -/
def canonicalObjectName (objectName : Str) : Str := jsTrim (stripLeadingSlashes objectName)

/-- `normalizePrefix`. -/
def normPrefixStr (p : Str) : Str := stripLeadingSlashes (stripTrailingSlashes (jsTrim p))

/-- `buildReportObjectName`. -/
def buildReportObjectName (pre : Str) (fileName : Str) : Str :=
  let safeFileName := basename fileName
  let np := normPrefixStr pre
  if np.isEmpty then safeFileName else np ++ [47] ++ safeFileName

/-- `buildIndexObjectName`. -/
def buildIndexObjectName (pre : Str) : Str :=
  let np := normPrefixStr pre
  if np.isEmpty then strU "index.json" else np ++ [47] ++ strU "index.json"

/-- `buildObjectUrl`. -/
def buildObjectUrl (c : OssConfig) (objectName : Str) : Str :=
  strU "https://" ++ c.bucketName ++ [46] ++ c.endpoint ++ [47] ++
    encodeObjectKey (canonicalObjectName objectName)

/-- `buildPublicOssUrl`. -/
def buildPublicOssUrl (c : OssConfig) (objectName : Str) : Str :=
  let normalizedObject := canonicalObjectName objectName
  if !c.publicBaseUrl.isEmpty then
    stripTrailingSlashes c.publicBaseUrl ++ [47] ++ encodeObjectKey normalizedObject
  else buildObjectUrl c normalizedObject

/-- One item of the index document as the DELETE route sees it (a generic JSON
object).  `fileName` and `objectName` are its two fields the code reads (holding the
result of the `String(x or "")` coercion when present); `extra` stands for all other
fields, which the code carries through untouched. -/
structure IdxItem where
  fileName : Option Str
  objectName : Option Str
  extra : Str
deriving DecidableEq, Repr

/-- Outcome of one signed HTTP request against the object store, as supplied by the
surrounding world; for GET the successful body also carries its parse: `none` when
`JSON.parse` would throw, otherwise the `items` member (absent or non-array modeled
as the empty list, non-object members as `none` entries). -/
inductive WireOutcome
  | netError
  | status (code : Nat) (body : Str)
deriving DecidableEq, Repr

inductive IdxGetOutcome
  | netError
  | status (code : Nat) (body : Str) (parsed : Option (List (Option IdxItem)))
deriving DecidableEq, Repr

/-- The wire behavior of the store during one DELETE request, keyed by the
canonicalized object name. -/
structure OssWire where
  getOutcome : Str → IdxGetOutcome
  delOutcome : Str → WireOutcome
  putOutcome : Str → WireOutcome

/-- A typed failure raised by `signedRequest` (empty object name, transport error, or
a non-OK/non-tolerated status with its truncated body). -/
inductive OssFail
  | emptyObjectName
  | transport
  | httpFail (code : Nat) (detail : Str)
deriving DecidableEq, Repr

/-- `response.ok`. -/
def respOk (code : Nat) : Bool := 200 ≤ code && code < 300

/-- Success shapes of the wire outcomes (used as hypotheses about the store). -/
def getOk : IdxGetOutcome → Prop
  | .netError => False
  | .status code _ _ => code = 404 ∨ respOk code = true

def delOk : WireOutcome → Prop
  | .netError => False
  | .status code _ => code = 404 ∨ respOk code = true

def putOk : WireOutcome → Prop
  | .netError => False
  | .status code _ => respOk code = true

def putFails : WireOutcome → Prop
  | .netError => True
  | .status code _ => respOk code = false

/-- `signedRequest` for GET with `allowNotFound`: a 404 is returned; any other non-OK
status raises with the trimmed, truncated body. -/
def signedGet (wire : OssWire) (objectName : Str) :
    Except OssFail (Nat × Str × Option (List (Option IdxItem))) :=
  let normalized := canonicalObjectName objectName
  if normalized.isEmpty then .error .emptyObjectName
  else
    match wire.getOutcome normalized with
    | .netError => .error .transport
    | .status code body parsed =>
      if code == 404 then .ok (code, body, parsed)
      else if respOk code then .ok (code, body, parsed)
      else .error (.httpFail code ((jsTrim body).take 500))

/-- `deleteObject` (`signedRequest` DELETE with `allowNotFound`). -/
def deleteObjectM (wire : OssWire) (objectName : Str) : Except OssFail Unit :=
  let normalized := canonicalObjectName objectName
  if normalized.isEmpty then .error .emptyObjectName
  else
    match wire.delOutcome normalized with
    | .netError => .error .transport
    | .status code body =>
      if code == 404 then .ok ()
      else if respOk code then .ok ()
      else .error (.httpFail code ((jsTrim body).take 500))

/-- The index payload written back by the DELETE route (`putJsonObject` argument);
JSON serialization is left abstract. -/
structure IndexPayload where
  generatedAt : Str
  count : Nat
  prefixStr : Str
  items : List IdxItem
deriving DecidableEq, Repr

/-- `putJsonObject` (`signedRequest` PUT, no 404 tolerance). -/
def putJsonObjectM (wire : OssWire) (objectName : Str) : Except OssFail Unit :=
  let normalized := canonicalObjectName objectName
  if normalized.isEmpty then .error .emptyObjectName
  else
    match wire.putOutcome normalized with
    | .netError => .error .transport
    | .status code body =>
      if respOk code then .ok ()
      else .error (.httpFail code ((jsTrim body).take 500))

/-- `loadIndexItems`: GET tolerating 404 (empty index); a body that fails to parse is
swallowed into an empty list; non-object members are filtered out. -/
def loadIndexItems (wire : OssWire) (indexObjectName : Str) :
    Except OssFail (List IdxItem) :=
  match signedGet wire indexObjectName with
  | .error e => .error e
  | .ok (code, _, parsed) =>
    if code == 404 then .ok []
    else
      match parsed with
      | none => .ok []
      | some items => .ok (items.filterMap id)

/-- `String(item.fileName || "")` — absent fields coerce to the empty string. -/
def strOfField (v : Option Str) : Str := v.getD []

/-- The removal scan of `deleteFromOss`: walk the items once; an item whose trimmed
`fileName` equals the target is dropped and its trimmed `objectName` captured, but
only while no object name has been captured yet; every other item is kept. -/
def scanRemove (fileName : Str) (objectName : Str) : List IdxItem → Str × List IdxItem
  | [] => (objectName, [])
  | it :: rest =>
    let itemFileName := jsTrim (strOfField it.fileName)
    if objectName.isEmpty && itemFileName == fileName then
      scanRemove fileName (jsTrim (strOfField it.objectName)) rest
    else
      let r := scanRemove fileName objectName rest
      (r.1, it :: r.2)

/-- `compareByFileNameDesc` from the DELETE route, as the stable-sort relation. -/
abbrev idxR (a b : IdxItem) : Prop :=
  localeCompareM (strOfField b.fileName) (strOfField a.fileName) ≤ 0

/-- The observable outcome of `deleteFromOss`: its returned record plus the DELETE
target and the index PUT it performed. -/
structure DelEffects where
  objectName : Option Str
  indexUpdated : Bool
  deletedObject : Option Str
  putIndex : Option (Str × IndexPayload)
deriving DecidableEq, Repr

/-- The object name `deleteFromOss` deletes: the scan capture when nonempty, else
the canonical report object path (the code's `objectName` local). -/
def chosenObject (config : OssConfig) (fileName : Str) (items : List IdxItem) : Str :=
  if (scanRemove fileName [] items).1.isEmpty then
    buildReportObjectName config.prefixStr fileName
  else (scanRemove fileName [] items).1

/-- The full index document `deleteFromOss` writes back: remaining items re-sorted
by filename descending, with refreshed generation timestamp and count. -/
def nextPayload (config : OssConfig) (nowIso : Str) (fileName : Str)
    (items : List IdxItem) : IndexPayload :=
  { generatedAt := nowIso,
    count := (List.insertionSort idxR (scanRemove fileName [] items).2).length,
    prefixStr := config.prefixStr,
    items := List.insertionSort idxR (scanRemove fileName [] items).2 }

/-- The tail of `deleteFromOss` once the index items are loaded: delete the chosen
object, then rewrite the index. -/
def delStep2 (wire : OssWire) (config : OssConfig) (nowIso : Str) (fileName : Str)
    (items : List IdxItem) : Except OssFail DelEffects :=
  match deleteObjectM wire (chosenObject config fileName items) with
  | .error e => .error e
  | .ok _ =>
    match putJsonObjectM wire (buildIndexObjectName config.prefixStr) with
    | .error e => .error e
    | .ok _ =>
      .ok { objectName := some (chosenObject config fileName items),
            indexUpdated := true,
            deletedObject := some (canonicalObjectName (chosenObject config fileName items)),
            putIndex := some (canonicalObjectName (buildIndexObjectName config.prefixStr),
              nextPayload config nowIso fileName items) }

/-- `deleteFromOss` from the DELETE route (`nowIso` is the `new Date().toISOString()`
of the rewrite). -/
def deleteFromOss (wire : OssWire) (config : OssConfig) (nowIso : Str) (fileName : Str) :
    Except OssFail DelEffects :=
  if !isOssConfigured config then
    .ok { objectName := none, indexUpdated := false, deletedObject := none, putIndex := none }
  else
    match loadIndexItems wire (buildIndexObjectName config.prefixStr) with
    | .error e => .error e
    | .ok items => delStep2 wire config nowIso fileName items

/-- `decodeSlug` from the DELETE route: base64url-decode (never throws) and reject
empty results and anything that is not a bare basename. -/
def decodeSlug (slug : Str) : Option Str :=
  let fileName := fromSlugStr slug
  if fileName.isEmpty || !(basename fileName == fileName) then none else some fileName

/-- The JSON response of the DELETE route handler. -/
structure DeleteResponseM where
  ok : Bool
  status : Nat
  objectName : Str
  deletedUrl : Str
deriving DecidableEq, Repr

/-- The `DELETE` handler: decode the slug (400 on failure), run `deleteFromOss`
(500 with `ok:false` when it throws), delete local artifacts (filesystem-only,
swallows its errors), and report success with the public URL of the removed
object.  `loadOssConfig` is read per call but derived from the same environment, so
it is one `config` parameter here. -/
def handleDeleteReport (wire : OssWire) (config : OssConfig) (nowIso : Str) (slug : Str) :
    DeleteResponseM :=
  match decodeSlug slug with
  | none => { ok := false, status := 400, objectName := [], deletedUrl := [] }
  | some fileName =>
    match deleteFromOss wire config nowIso fileName with
    | .error _ => { ok := false, status := 500, objectName := [], deletedUrl := [] }
    | .ok eff =>
      let deletedUrl :=
        match eff.objectName with
        | some obName =>
          if !obName.isEmpty && isOssConfigured config then buildPublicOssUrl config obName else []
        | none => []
      { ok := true, status := 200, objectName := (eff.objectName.getD []),
        deletedUrl := deletedUrl }

/-! ## Spec-side definitions (for refinement-style claims) -/

/-- Modelled from the spec's excerpt description: the surviving lines — trimmed, with
empties and lines starting with a heading, blockquote, footnote or horizontal-rule
marker dropped. -/
def specSurvivingLines (text : Str) : List Str :=
  ((text.splitOn 10).map jsTrim).filter (fun l =>
    !(l.isEmpty || (strU "#").isPrefixOf l || (strU ">").isPrefixOf l ||
      (strU "[^").isPrefixOf l || (strU "---").isPrefixOf l))

/-- Modelled from the spec's excerpt description: first two surviving lines joined by
one space, emphasis characters stripped, capped at 160 UTF-16 code units, with the
fixed placeholder when nothing survives. -/
def excerptSpec (text : Str) : Str :=
  match specSurvivingLines text with
  | [] => NO_EXCERPT
  | ls =>
    ((List.intercalate (strU " ") (ls.take 2)).filter
      (fun u => !(u == 42 || u == 95 || u == 96))).take 160

/-- Does this index item match the deletion target (after the same coercion and trim
the route applies)? -/
def idxMatches (fileName : Str) (it : IdxItem) : Bool :=
  jsTrim (strOfField it.fileName) == fileName

/-- The object the route deletes when index entry `m` is the match: the entry's
trimmed object name, or the canonical report object path when the entry has none. -/
def deleteTarget (config : OssConfig) (fileName : Str) (m : IdxItem) : Str :=
  if (jsTrim (strOfField m.objectName)).isEmpty then
    buildReportObjectName config.prefixStr fileName
  else jsTrim (strOfField m.objectName)

/-- Projection used to inspect the index document written by a deletion. -/
def putItemsOf (r : Except OssFail DelEffects) : Option (List IdxItem) :=
  match r with
  | .ok eff => eff.putIndex.map (fun p => p.2.items)
  | .error _ => none

/-! ## Concrete instances used by witnesses and counterexamples -/

/-- An environment with no remote configuration and nothing on disk. -/
def emptyEnv : Env :=
  { ossConfig := fun _ => none, fetchIndex := fun _ => .netError,
    fetchContent := fun _ => none, dir0 := [], dir1 := [],
    read0 := fun _ => none, read1 := fun _ => none, nowQueryStr := [] }

/-- A resolved remote configuration for the ai channel. -/
def cfgAi : OssRuntimeConfig :=
  { channel := .ai, prefixStr := strU "daily-news/reports",
    indexUrl := strU "https://cdn.example.com/daily-news/reports/index.json",
    publicBaseUrl := strU "https://cdn.example.com", bucketBaseUrl := [] }

/-- An index item carrying only a fileName. -/
def rawOfName (n : String) : RawItem :=
  { fileName := some (strU n), objectName := none, title := none, excerpt := none,
    date := none, updatedAt := none, itemCount := none, themeCount := none, url := none }

/-- Remote index with two dated reports and one whose name has no parseable date. -/
def env3 : Env :=
  { ossConfig := fun c => match c with | .ai => some cfgAi | .crypto => none,
    fetchIndex := fun _ => .ok [some (rawOfName "2024-01-02 - a.md"),
      some (rawOfName "2024-01-03 - a.md"), some (rawOfName "nodate.md")],
    fetchContent := fun _ => none, dir0 := [], dir1 := [],
    read0 := fun _ => none, read1 := fun _ => none, nowQueryStr := [] }

/-- Remote index containing a markdown file without any channel marker. -/
def env4 : Env :=
  { ossConfig := fun c => match c with | .ai => some cfgAi | .crypto => none,
    fetchIndex := fun _ => .ok [some (rawOfName "foo.md")],
    fetchContent := fun _ => none, dir0 := [], dir1 := [],
    read0 := fun _ => none, read1 := fun _ => none, nowQueryStr := [] }

/-- The summary `env4` produces for `foo.md`. -/
def m4 : PubMeta :=
  { slug := toSlug (strU "foo.md"), channel := .ai, title := strU "foo",
    date := UNKNOWN_DATE, fileName := strU "foo.md", excerpt := NO_EXCERPT,
    itemCount := 0, themeCount := 0, updatedAt := [] }

def cfg5a : OssRuntimeConfig :=
  { channel := .ai, prefixStr := strU "pre",
    indexUrl := strU "https://a.example.com/pre/index.json",
    publicBaseUrl := strU "https://a.example.com", bucketBaseUrl := [] }

def cfg5c : OssRuntimeConfig :=
  { channel := .crypto, prefixStr := strU "pre",
    indexUrl := strU "https://c.example.com/pre/index.json",
    publicBaseUrl := strU "https://c.example.com", bucketBaseUrl := [] }

def fileName5 : Str := strU "2024-06-01 - r.md"

/-- Both channels list the same report, but only the crypto channel can serve its
content: the ai content fetch fails. -/
def env5 : Env :=
  { ossConfig := fun c => match c with | .ai => some cfg5a | .crypto => some cfg5c,
    fetchIndex := fun _ => .ok [some (rawOfName "2024-06-01 - r.md")],
    fetchContent := fun u =>
      if (strU "https://c.example.com").isPrefixOf u then some (strU "crypto content")
      else none,
    dir0 := [], dir1 := [], read0 := fun _ => none, read1 := fun _ => none,
    nowQueryStr := [] }

/-- Remote configuration present but the index fetch fails, while a qualifying local
file exists. -/
def env7 : Env :=
  { ossConfig := fun c => match c with | .ai => some cfgAi | .crypto => none,
    fetchIndex := fun _ => .netError, fetchContent := fun _ => none,
    dir0 := [{ name := strU "2024-01-01 - Karpathy 精选 RSS 日报.md",
               content := strU "hello", mtime := strU "2024-01-01T00:00:00Z" }],
    dir1 := [], read0 := fun _ => none, read1 := fun _ => none, nowQueryStr := [] }

/-- Remote index lists `a.md`, and every content fetch succeeds. -/
def env10 : Env :=
  { ossConfig := fun c => match c with | .ai => some cfgAi | .crypto => none,
    fetchIndex := fun _ => .ok [some (rawOfName "a.md")],
    fetchContent := fun _ => some (strU "hello"), dir0 := [], dir1 := [],
    read0 := fun _ => none, read1 := fun _ => none, nowQueryStr := [] }

def fileName10 : Str := strU "a.md"

def slug10a : Str := toSlug fileName10

def slug10b : Str := slug10a ++ strU "=="

/-- A usable store configuration for the DELETE route. -/
def config8 : OssConfig :=
  { accessKeyId := strU "id", accessKeySecret := strU "secret",
    bucketName := strU "bucket", endpoint := strU "oss.example.com",
    publicBaseUrl := [], prefixStr := strU "daily-news/reports" }

/-- GET finds an empty index, DELETE reports the object absent (404), and the index
PUT dies on the network. -/
def wire8 : OssWire :=
  { getOutcome := fun _ => .status 200 [] (some []),
    delOutcome := fun _ => .status 404 [],
    putOutcome := fun _ => .netError }

def itemA9 : IdxItem :=
  { fileName := some (strU "A.md"),
    objectName := some (strU "daily-news/reports/A.md"), extra := strU "a" }

def itemB9 : IdxItem :=
  { fileName := some (strU "B.md"),
    objectName := some (strU "daily-news/reports/B.md"), extra := strU "b" }

def items9 : List IdxItem := [itemA9, itemB9]

/-- The index holds `A.md` and `B.md`; deletion of the object is tolerated as already
absent (404) and the index PUT succeeds. -/
def wire9 : OssWire :=
  { getOutcome := fun _ => .status 200 [] (some (items9.map some)),
    delOutcome := fun _ => .status 404 [],
    putOutcome := fun _ => .status 200 [] }

/-- Two index entries match `A.md`; the first one carries no object name. -/
def itemA9x : IdxItem := { fileName := some (strU "A.md"), objectName := none, extra := strU "x1" }

def itemA9y : IdxItem :=
  { fileName := some (strU "A.md"),
    objectName := some (strU "daily-news/reports/A.md"), extra := strU "x2" }

def items9x : List IdxItem := [itemA9x, itemA9y]

def wire9x : OssWire :=
  { getOutcome := fun _ => .status 200 [] (some (items9x.map some)),
    delOutcome := fun _ => .status 200 [],
    putOutcome := fun _ => .status 200 [] }

/-- 159 ASCII characters followed by an emoji (a surrogate pair). -/
def doc6 : Str := List.replicate 159 97 ++ [0xD83D, 0xDE00]

theorem highSurr_iff (u : Nat) : isHighSurrogate u = true ↔ 0xD800 ≤ u ∧ u < 0xDC00 := by
  simp [isHighSurrogate]

theorem lowSurr_iff (u : Nat) : isLowSurrogate u = true ↔ 0xDC00 ≤ u ∧ u < 0xE000 := by
  simp [isLowSurrogate]

theorem scalarValid_iff (cp : Nat) :
    scalarValid cp = true ↔ cp < 0x110000 ∧ ¬(0xD800 ≤ cp ∧ cp < 0xE000) := by
  simp only [scalarValid, Bool.and_eq_true, decide_eq_true_eq, Bool.not_eq_true',
    Bool.and_eq_false_iff, decide_eq_false_iff_not]
  omega

theorem strOfCps_utf16ToCp (s : List Nat) (h : wfUtf16 s = true) :
    strOfCps (utf16ToCp s) = s := by
  induction s using utf16ToCp.induct with
  | case1 => simp [utf16ToCp, strOfCps]
  | case2 u hu =>
    rw [wfUtf16] at h
    simp only [Bool.or_eq_true] at hu
    simp only [Bool.and_eq_true, Bool.not_eq_true'] at h
    rcases hu with hu | hu
    · rw [h.1.1] at hu; exact absurd hu (by simp)
    · rw [h.1.2] at hu; exact absurd hu (by simp)
  | case3 u hu =>
    rw [wfUtf16] at h
    simp only [Bool.and_eq_true, Bool.not_eq_true', decide_eq_true_eq] at h
    rw [utf16ToCp, if_neg hu, strOfCps]
    simp only [List.flatMap_cons, List.flatMap_nil, List.append_nil]
    rw [cpToUtf16, if_pos h.2]
  | case4 u v rest hhigh hlow ih =>
    rw [wfUtf16] at h
    rw [if_pos hhigh] at h
    simp only [Bool.and_eq_true] at h
    rw [utf16ToCp, if_pos hhigh, if_pos hlow]
    rw [strOfCps, List.flatMap_cons]
    rw [strOfCps] at ih
    rw [ih h.2]
    rw [highSurr_iff] at hhigh
    rw [lowSurr_iff] at hlow
    rw [cpToUtf16, if_neg (by omega)]
    simp only [List.cons_append, List.nil_append, List.cons.injEq]
    refine ⟨by omega, by omega, trivial⟩
  | case5 u v rest hhigh hlow ih =>
    rw [wfUtf16, if_pos hhigh] at h
    simp only [Bool.and_eq_true] at h
    exact absurd h.1 hlow
  | case6 u v rest hhigh hlowu ih =>
    rw [wfUtf16, if_neg hhigh] at h
    simp only [Bool.and_eq_true, Bool.not_eq_true'] at h
    rw [h.1.1] at hlowu
    exact absurd hlowu (by simp)
  | case7 u v rest hhigh hlowu ih =>
    rw [wfUtf16, if_neg hhigh] at h
    simp only [Bool.and_eq_true, Bool.not_eq_true', decide_eq_true_eq] at h
    rw [utf16ToCp, if_neg hhigh, if_neg (by rw [h.1.1]; simp)]
    rw [strOfCps, List.flatMap_cons]
    rw [strOfCps] at ih
    rw [ih h.2]
    rw [cpToUtf16, if_pos h.1.2]
    rfl

theorem utf16ToCp_scalarValid (s : List Nat) (h : wfUtf16 s = true) :
    ∀ cp ∈ utf16ToCp s, scalarValid cp = true := by
  induction s using utf16ToCp.induct with
  | case1 => simp [utf16ToCp]
  | case2 u hu =>
    rw [utf16ToCp, if_pos hu]
    intro cp hcp
    simp only [List.mem_singleton] at hcp
    rw [hcp]
    decide
  | case3 u hu =>
    rw [wfUtf16] at h
    simp only [Bool.and_eq_true, Bool.not_eq_true', decide_eq_true_eq] at h
    rw [utf16ToCp, if_neg hu]
    intro cp hcp
    simp only [List.mem_singleton] at hcp
    rw [hcp]
    have h1 : isHighSurrogate u = false := h.1.1
    have h2 : isLowSurrogate u = false := h.1.2
    rw [Bool.eq_false_iff, Ne, highSurr_iff] at h1
    rw [Bool.eq_false_iff, Ne, lowSurr_iff] at h2
    rw [scalarValid_iff]
    omega
  | case4 u v rest hhigh hlow ih =>
    rw [wfUtf16, if_pos hhigh] at h
    simp only [Bool.and_eq_true] at h
    rw [utf16ToCp, if_pos hhigh, if_pos hlow]
    intro cp hcp
    rcases List.mem_cons.1 hcp with hc | hc
    · rw [hc, scalarValid_iff]
      rw [highSurr_iff] at hhigh
      rw [lowSurr_iff] at hlow
      omega
    · exact ih h.2 cp hc
  | case5 u v rest hhigh hlow ih =>
    rw [wfUtf16, if_pos hhigh] at h
    simp only [Bool.and_eq_true] at h
    exact absurd h.1 hlow
  | case6 u v rest hhigh hlowu ih =>
    rw [wfUtf16, if_neg hhigh] at h
    simp only [Bool.and_eq_true, Bool.not_eq_true'] at h
    rw [h.1.1] at hlowu
    exact absurd hlowu (by simp)
  | case7 u v rest hhigh hlowu ih =>
    rw [wfUtf16, if_neg hhigh] at h
    simp only [Bool.and_eq_true, Bool.not_eq_true', decide_eq_true_eq] at h
    rw [utf16ToCp, if_neg hhigh, if_neg (by rw [h.1.1]; simp)]
    intro cp hcp
    rcases List.mem_cons.1 hcp with hc | hc
    · rw [hc, scalarValid_iff]
      rw [highSurr_iff] at hhigh
      have h2 : isLowSurrogate u = false := h.1.1
      rw [Bool.eq_false_iff, Ne, lowSurr_iff] at h2
      have h3 := h.1.2
      omega
    · exact ih h.2 cp hc

theorem utf8EncodeCp_lt256 (cp : Nat) (h : scalarValid cp = true) :
    ∀ b ∈ utf8EncodeCp cp, b < 256 := by
  rw [scalarValid_iff] at h
  rw [utf8EncodeCp]
  intro b hb
  by_cases h1 : cp < 0x80
  · rw [if_pos h1] at hb
    simp only [List.mem_singleton] at hb
    omega
  · rw [if_neg h1] at hb
    by_cases h2 : cp < 0x800
    · rw [if_pos h2] at hb
      simp only [List.mem_cons, List.not_mem_nil, or_false] at hb
      rcases hb with hb | hb <;> omega
    · rw [if_neg h2] at hb
      by_cases h3 : cp < 0x10000
      · rw [if_pos h3] at hb
        simp only [List.mem_cons, List.not_mem_nil, or_false] at hb
        have e1 : cp / 4096 < 16 := by omega
        have e2 : cp / 64 % 64 < 64 := Nat.mod_lt _ (by omega)
        have e3 : cp % 64 < 64 := Nat.mod_lt _ (by omega)
        rcases hb with hb | hb | hb <;> omega
      · rw [if_neg h3] at hb
        simp only [List.mem_cons, List.not_mem_nil, or_false] at hb
        have e1 : cp / 262144 < 5 := by omega
        have e2 : cp / 4096 % 64 < 64 := Nat.mod_lt _ (by omega)
        have e3 : cp / 64 % 64 < 64 := Nat.mod_lt _ (by omega)
        have e4 : cp % 64 < 64 := Nat.mod_lt _ (by omega)
        rcases hb with hb | hb | hb | hb <;> omega

theorem utf8Encode_lt256 (cps : List Nat) (h : ∀ cp ∈ cps, scalarValid cp = true) :
    ∀ b ∈ utf8Encode cps, b < 256 := by
  intro b hb
  rw [utf8Encode, List.mem_flatMap] at hb
  obtain ⟨cp, hcp, hbm⟩ := hb
  exact utf8EncodeCp_lt256 cp (h cp hcp) b hbm

theorem utf8Decode_encodeCp (cp : Nat) (h : scalarValid cp = true) (tail : List Nat) :
    utf8Decode (utf8EncodeCp cp ++ tail) = cp :: utf8Decode tail := by
  rw [scalarValid_iff] at h
  rw [utf8Decode, utf8EncodeCp]
  by_cases h1 : cp < 0x80
  · rw [if_pos h1, List.cons_append, List.nil_append, utf8DecodeAux]
    rw [if_pos (by decide), if_pos h1]
    rfl
  · rw [if_neg h1]
    by_cases h2 : cp < 0x800
    · rw [if_pos h2]
      simp only [List.cons_append, List.nil_append]
      have e1 : cp / 64 < 32 := by omega
      have e2 : 2 ≤ cp / 64 := by omega
      have e3 : cp % 64 < 64 := Nat.mod_lt _ (by omega)
      rw [utf8DecodeAux, if_pos (by decide), if_neg (by omega), if_neg (by omega), if_pos (by omega)]
      rw [utf8DecodeAux, if_neg (by decide)]
      rw [if_pos (by simp only [isCont, Bool.and_eq_true, decide_eq_true_eq]; omega)]
      rw [if_pos (by decide)]
      have e9 : (0xC0 + cp / 64 - 0xC0) * 64 + (0x80 + cp % 64 - 0x80) = cp := by omega
      rw [e9]
      rw [if_pos (by simp only [Bool.and_eq_true, decide_eq_true_eq, Bool.not_eq_true',
                       Bool.and_eq_false_iff, decide_eq_false_iff_not]
                     omega)]
      rfl
    · rw [if_neg h2]
      by_cases h3 : cp < 0x10000
      · rw [if_pos h3]
        simp only [List.cons_append, List.nil_append]
        have e1 : cp / 4096 < 16 := by omega
        have e3 : cp / 64 % 64 < 64 := Nat.mod_lt _ (by omega)
        have e4 : cp % 64 < 64 := Nat.mod_lt _ (by omega)
        have e5 : cp / 4096 * 4096 + cp / 64 % 64 * 64 + cp % 64 = cp := by
          have q1 := Nat.div_add_mod cp 64
          have q2 := Nat.div_add_mod (cp / 64) 64
          have q3 : cp / 64 / 64 = cp / 4096 := by rw [Nat.div_div_eq_div_mul]
          omega
        rw [utf8DecodeAux, if_pos (by decide), if_neg (by omega), if_neg (by omega), if_neg (by omega),
          if_pos (by omega)]
        rw [utf8DecodeAux, if_neg (by decide)]
        rw [if_pos (by simp only [isCont, Bool.and_eq_true, decide_eq_true_eq]; omega)]
        rw [if_neg (by decide)]
        rw [utf8DecodeAux, if_neg (by decide)]
        rw [if_pos (by simp only [isCont, Bool.and_eq_true, decide_eq_true_eq]; omega)]
        rw [if_pos (by decide)]
        have e9 : ((0xE0 + cp / 4096 - 0xE0) * 64 + (0x80 + cp / 64 % 64 - 0x80)) * 64 +
            (0x80 + cp % 64 - 0x80) = cp := by omega
        rw [e9]
        rw [if_pos (by simp only [Bool.and_eq_true, decide_eq_true_eq, Bool.not_eq_true',
                         Bool.and_eq_false_iff, decide_eq_false_iff_not]
                       omega)]
        rfl
      · rw [if_neg h3]
        simp only [List.cons_append, List.nil_append]
        have e1 : cp / 262144 < 5 := by omega
        have e3 : cp / 4096 % 64 < 64 := Nat.mod_lt _ (by omega)
        have e4 : cp / 64 % 64 < 64 := Nat.mod_lt _ (by omega)
        have e5 : cp % 64 < 64 := Nat.mod_lt _ (by omega)
        have e6 : cp / 262144 * 262144 + cp / 4096 % 64 * 4096 + cp / 64 % 64 * 64 + cp % 64
            = cp := by
          have q1 := Nat.div_add_mod cp 64
          have q2 := Nat.div_add_mod (cp / 64) 64
          have q3 := Nat.div_add_mod (cp / 4096) 64
          have q4 : cp / 64 / 64 = cp / 4096 := by rw [Nat.div_div_eq_div_mul]
          have q5 : cp / 4096 / 64 = cp / 262144 := by rw [Nat.div_div_eq_div_mul]
          omega
        rw [utf8DecodeAux, if_pos (by decide), if_neg (by omega), if_neg (by omega), if_neg (by omega),
          if_neg (by omega), if_pos (by omega)]
        rw [utf8DecodeAux, if_neg (by decide)]
        rw [if_pos (by simp only [isCont, Bool.and_eq_true, decide_eq_true_eq]; omega)]
        rw [if_neg (by decide)]
        rw [utf8DecodeAux, if_neg (by decide)]
        rw [if_pos (by simp only [isCont, Bool.and_eq_true, decide_eq_true_eq]; omega)]
        rw [if_neg (by decide)]
        rw [utf8DecodeAux, if_neg (by decide)]
        rw [if_pos (by simp only [isCont, Bool.and_eq_true, decide_eq_true_eq]; omega)]
        rw [if_pos (by decide)]
        have s1 : 0xF0 + cp / 262144 - 0xF0 = cp / 262144 := by omega
        have s2 : 0x80 + cp / 4096 % 64 - 0x80 = cp / 4096 % 64 := by omega
        have s3 : 0x80 + cp / 64 % 64 - 0x80 = cp / 64 % 64 := by omega
        have s4 : 0x80 + cp % 64 - 0x80 = cp % 64 := by omega
        rw [s1, s2, s3, s4]
        have e9 : ((cp / 262144 * 64 + cp / 4096 % 64) * 64 + cp / 64 % 64) * 64 + cp % 64
            = cp := by omega
        rw [e9]
        rw [if_pos (by simp only [Bool.and_eq_true, decide_eq_true_eq, Bool.not_eq_true',
                         Bool.and_eq_false_iff, decide_eq_false_iff_not]
                       omega)]
        rfl

theorem utf8Decode_encode (cps : List Nat) (h : ∀ cp ∈ cps, scalarValid cp = true) :
    utf8Decode (utf8Encode cps) = cps := by
  induction cps with
  | nil => rfl
  | cons cp rest ih =>
    rw [utf8Encode, List.flatMap_cons]
    rw [utf8Decode_encodeCp cp (h cp (List.mem_cons_self cp rest))]
    rw [← utf8Encode, ih (fun c hc => h c (List.mem_cons_of_mem cp hc))]

theorem b64Val_b64Unit : ∀ v, v < 64 → b64Val (b64Unit v) = some v := by decide

theorem encodeSextets_lt64 (bs : List Nat) (h : ∀ b ∈ bs, b < 256) :
    ∀ v ∈ encodeSextets bs, v < 64 := by
  induction bs using encodeSextets.induct with
  | case1 => simp [encodeSextets]
  | case2 b1 =>
    have h1 : b1 < 256 := h b1 (by simp)
    rw [encodeSextets]
    intro v hv
    simp only [List.mem_cons, List.not_mem_nil, or_false] at hv
    rcases hv with hv | hv <;> omega
  | case3 b1 b2 =>
    have h1 : b1 < 256 := h b1 (by simp)
    have h2 : b2 < 256 := h b2 (by simp)
    rw [encodeSextets]
    intro v hv
    simp only [List.mem_cons, List.not_mem_nil, or_false] at hv
    have e1 : b2 / 16 < 16 := by omega
    rcases hv with hv | hv | hv <;> omega
  | case4 b1 b2 b3 rest ih =>
    have h1 : b1 < 256 := h b1 (by simp)
    have h2 : b2 < 256 := h b2 (by simp)
    have h3 : b3 < 256 := h b3 (by simp)
    rw [encodeSextets]
    intro v hv
    have e1 : b2 / 16 < 16 := by omega
    have e2 : b3 / 64 < 4 := by omega
    simp only [List.mem_cons] at hv
    rcases hv with hv | hv | hv | hv | hv
    · omega
    · omega
    · omega
    · omega
    · exact ih (fun b hb => h b (by simp [hb])) v hv

theorem decodeSextets_encodeSextets (bs : List Nat) (h : ∀ b ∈ bs, b < 256) :
    decodeSextets (encodeSextets bs) = bs := by
  induction bs using encodeSextets.induct with
  | case1 => rw [encodeSextets, decodeSextets]
  | case2 b1 =>
    have h1 : b1 < 256 := h b1 (by simp)
    rw [encodeSextets, decodeSextets]
    have e9 : b1 / 4 * 4 + b1 % 4 * 16 / 16 = b1 := by omega
    rw [e9]
  | case3 b1 b2 =>
    have h1 : b1 < 256 := h b1 (by simp)
    have h2 : b2 < 256 := h b2 (by simp)
    rw [encodeSextets, decodeSextets]
    have e0 : b2 / 16 < 16 := by omega
    have e9 : b1 / 4 * 4 + (b1 % 4 * 16 + b2 / 16) / 16 = b1 := by omega
    have e8 : (b1 % 4 * 16 + b2 / 16) % 16 * 16 + b2 % 16 * 4 / 4 = b2 := by omega
    rw [e9, e8]
  | case4 b1 b2 b3 rest ih =>
    have h1 : b1 < 256 := h b1 (by simp)
    have h2 : b2 < 256 := h b2 (by simp)
    have h3 : b3 < 256 := h b3 (by simp)
    rw [encodeSextets, decodeSextets]
    have e0 : b2 / 16 < 16 := by omega
    have e1 : b3 / 64 < 4 := by omega
    have e9 : b1 / 4 * 4 + (b1 % 4 * 16 + b2 / 16) / 16 = b1 := by omega
    have e8 : (b1 % 4 * 16 + b2 / 16) % 16 * 16 + (b2 % 16 * 4 + b3 / 64) / 4 = b2 := by omega
    have e7 : (b2 % 16 * 4 + b3 / 64) % 4 * 64 + b3 % 64 = b3 := by omega
    rw [e9, e8, e7, ih (fun b hb => h b (by simp [hb]))]

theorem filterMap_b64 (vs : List Nat) (h : ∀ v ∈ vs, v < 64) :
    (vs.map b64Unit).filterMap b64Val = vs := by
  induction vs with
  | nil => simp
  | cons v rest ih =>
    rw [List.map_cons, List.filterMap_cons]
    rw [b64Val_b64Unit v (h v (by simp))]
    rw [ih (fun w hw => h w (by simp [hw]))]

theorem fromSlugStr_toSlug (s : Str) (h : wfUtf16 s = true) : fromSlugStr (toSlug s) = s := by
  rw [toSlug, fromSlugStr]
  rw [filterMap_b64 _ (encodeSextets_lt64 _ (utf8Encode_lt256 _ (utf16ToCp_scalarValid s h)))]
  rw [decodeSextets_encodeSextets _ (utf8Encode_lt256 _ (utf16ToCp_scalarValid s h))]
  rw [utf8Decode_encode _ (utf16ToCp_scalarValid s h)]
  exact strOfCps_utf16ToCp s h

/-! ## Order lemmas for the comparators -/

theorem lexOrdU_eq_iff : ∀ (a b : Str), lexOrdU a b = Ordering.eq ↔ a = b
  | [], [] => by simp [lexOrdU]
  | [], _ :: _ => by simp [lexOrdU]
  | _ :: _, [] => by simp [lexOrdU]
  | x :: xs, y :: ys => by
    rw [lexOrdU]
    by_cases h1 : x < y
    · rw [if_pos h1]
      constructor
      · intro hx; exact absurd hx (by decide)
      · intro hx
        exact absurd (List.cons.injEq .. ▸ hx).1 (by omega)
    · rw [if_neg h1]
      by_cases h2 : y < x
      · rw [if_pos h2]
        constructor
        · intro hx; exact absurd hx (by decide)
        · intro hx
          exact absurd (List.cons.injEq .. ▸ hx).1 (by omega)
      · rw [if_neg h2]
        have hxy : x = y := by omega
        subst hxy
        rw [lexOrdU_eq_iff xs ys]
        simp

theorem lexOrdU_self (a : Str) : lexOrdU a a = Ordering.eq := (lexOrdU_eq_iff a a).2 rfl

theorem lexOrdU_swap : ∀ (a b : Str), lexOrdU b a = (lexOrdU a b).swap
  | [], [] => by simp [lexOrdU, Ordering.swap]
  | [], _ :: _ => by simp [lexOrdU, Ordering.swap]
  | _ :: _, [] => by simp [lexOrdU, Ordering.swap]
  | x :: xs, y :: ys => by
    rw [lexOrdU, lexOrdU]
    rcases Nat.lt_trichotomy x y with h | h | h
    · rw [if_neg (by omega), if_pos h, if_pos h]
      rfl
    · subst h
      have hx : ¬ x < x := by omega
      simp only [if_neg hx]
      exact lexOrdU_swap xs ys
    · rw [if_pos h, if_neg (by omega), if_pos h]
      rfl

theorem lexOrdU_lt_trans : ∀ (a b c : Str),
    lexOrdU a b = Ordering.lt → lexOrdU b c = Ordering.lt → lexOrdU a c = Ordering.lt
  | [], [], _ => by intro h; exact absurd h (by simp [lexOrdU])
  | [], _ :: _, [] => by intro _ h; exact absurd h (by simp [lexOrdU])
  | [], _ :: _, _ :: _ => by intro _ _; simp [lexOrdU]
  | _ :: _, [], _ => by intro h; exact absurd h (by simp [lexOrdU])
  | _ :: _, _ :: _, [] => by intro _ h; exact absurd h (by simp [lexOrdU])
  | x :: xs, y :: ys, z :: zs => by
    rw [lexOrdU, lexOrdU, lexOrdU]
    intro h1 h2
    rcases Nat.lt_trichotomy x y with hxy | hxy | hxy
    · rcases Nat.lt_trichotomy y z with hyz | hyz | hyz
      · rw [if_pos (by omega)]
      · subst hyz
        rw [if_pos hxy]
      · rw [if_neg (by omega), if_pos hyz] at h2
        exact absurd h2 (by decide)
    · subst hxy
      rcases Nat.lt_trichotomy x z with hxz | hxz | hxz
      · rw [if_pos hxz]
      · subst hxz
        have hx : ¬ x < x := by omega
        simp only [if_neg hx] at h1 h2 ⊢
        exact lexOrdU_lt_trans xs ys zs h1 h2
      · rw [if_neg (by omega), if_pos hxz] at h2
        exact absurd h2 (by decide)
    · rw [if_neg (by omega), if_pos hxy] at h1
      exact absurd h1 (by decide)

theorem lexOrdU_lt_ne (a b : Str) (h : lexOrdU a b = Ordering.lt) : a ≠ b := by
  intro he
  subst he
  rw [lexOrdU_self] at h
  exact absurd h (by decide)

theorem localeCompareM_le_iff (a b : Str) :
    localeCompareM a b ≤ 0 ↔ (lexOrdU a b = Ordering.lt ∨ a = b) := by
  rw [← lexOrdU_eq_iff a b, localeCompareM]
  cases h : lexOrdU a b <;> decide

theorem localeCompareM_total (a b : Str) :
    localeCompareM a b ≤ 0 ∨ localeCompareM b a ≤ 0 := by
  rw [localeCompareM_le_iff, localeCompareM_le_iff]
  cases h : lexOrdU a b
  · exact Or.inl (Or.inl rfl)
  · exact Or.inl (Or.inr ((lexOrdU_eq_iff a b).1 h))
  · right
    left
    rw [lexOrdU_swap, h]
    rfl

theorem localeCompareM_le_trans (a b c : Str)
    (h1 : localeCompareM a b ≤ 0) (h2 : localeCompareM b c ≤ 0) :
    localeCompareM a c ≤ 0 := by
  rw [localeCompareM_le_iff] at h1 h2 ⊢
  rcases h1 with h1 | h1
  · rcases h2 with h2 | h2
    · exact Or.inl (lexOrdU_lt_trans a b c h1 h2)
    · subst h2; exact Or.inl h1
  · subst h1; exact h2

theorem compareFileDateDesc_le_total (fa fb : Str) :
    compareFileDateDesc fa fb ≤ 0 ∨ compareFileDateDesc fb fa ≤ 0 := by
  rw [compareFileDateDesc, compareFileDateDesc]
  by_cases h : safeDateFromName fa = safeDateFromName fb
  · rw [if_neg (by simp [h]), if_neg (by simp [h])]
    exact localeCompareM_total fb fa
  · rw [if_pos h, if_pos (Ne.symm h)]
    exact localeCompareM_total (safeDateFromName fb) (safeDateFromName fa)

theorem compareFileDateDesc_le_trans (fa fb fc : Str)
    (h1 : compareFileDateDesc fa fb ≤ 0) (h2 : compareFileDateDesc fb fc ≤ 0) :
    compareFileDateDesc fa fc ≤ 0 := by
  rw [compareFileDateDesc] at h1 h2 ⊢
  by_cases e1 : safeDateFromName fa = safeDateFromName fb
  · rw [if_neg (by simp [e1])] at h1
    by_cases e2 : safeDateFromName fb = safeDateFromName fc
    · rw [if_neg (by simp [e2])] at h2
      rw [if_neg (by simp [e1.trans e2])]
      exact localeCompareM_le_trans fc fb fa h2 h1
    · rw [if_pos e2] at h2
      have hlt : lexOrdU (safeDateFromName fc) (safeDateFromName fb) = Ordering.lt := by
        rcases (localeCompareM_le_iff _ _).1 h2 with hx | hx
        · exact hx
        · exact absurd hx.symm e2
      rw [if_pos (by rw [← e1] at e2 hlt; exact fun he => lexOrdU_lt_ne _ _ hlt he.symm)]
      rw [← e1] at hlt
      rw [localeCompareM_le_iff]
      exact Or.inl hlt
  · rw [if_pos e1] at h1
    have hlt1 : lexOrdU (safeDateFromName fb) (safeDateFromName fa) = Ordering.lt := by
      rcases (localeCompareM_le_iff _ _).1 h1 with hx | hx
      · exact hx
      · exact absurd hx.symm e1
    by_cases e2 : safeDateFromName fb = safeDateFromName fc
    · rw [← e2] at *
      rw [if_pos e1]
      rw [localeCompareM_le_iff]
      exact Or.inl hlt1
    · rw [if_pos e2] at h2
      have hlt2 : lexOrdU (safeDateFromName fc) (safeDateFromName fb) = Ordering.lt := by
        rcases (localeCompareM_le_iff _ _).1 h2 with hx | hx
        · exact hx
        · exact absurd hx.symm e2
      have hlt : lexOrdU (safeDateFromName fc) (safeDateFromName fa) = Ordering.lt :=
        lexOrdU_lt_trans _ _ _ hlt2 hlt1
      rw [if_pos (fun he => lexOrdU_lt_ne _ _ hlt he.symm)]
      rw [localeCompareM_le_iff]
      exact Or.inl hlt

theorem metaR_total (a b : RMeta) : metaR a b ∨ metaR b a :=
  compareFileDateDesc_le_total a.fileName b.fileName

theorem metaR_trans (a b c : RMeta) (h1 : metaR a b) (h2 : metaR b c) : metaR a c :=
  compareFileDateDesc_le_trans _ _ _ h1 h2

theorem localFileR_total (a b : LocalFile) : localFileR a b ∨ localFileR b a :=
  compareFileDateDesc_le_total a.name b.name

theorem localFileR_trans (a b c : LocalFile) (h1 : localFileR a b) (h2 : localFileR b c) :
    localFileR a c :=
  compareFileDateDesc_le_trans _ _ _ h1 h2

theorem idxR_total (a b : IdxItem) : idxR a b ∨ idxR b a := by
  rcases localeCompareM_total (strOfField b.fileName) (strOfField a.fileName) with h | h
  · exact Or.inl h
  · exact Or.inr h

theorem idxR_trans (a b c : IdxItem) (h1 : idxR a b) (h2 : idxR b c) : idxR a c :=
  localeCompareM_le_trans _ _ _ h2 h1

/-! ## Sorting facts -/

theorem safeDateFromName_digit_head (f : Str) (h : safeDateFromName f ≠ UNKNOWN_DATE) :
    ∃ u t, safeDateFromName f = u :: t ∧ 48 ≤ u ∧ u ≤ 57 := by
  rw [safeDateFromName] at h ⊢
  split at h
  next hc =>
    rw [if_pos hc]
    simp only [Bool.and_eq_true] at hc
    have hd : isDigit (f.getD 0 0) = true := hc.1.1.1.1.1.1.1.1.1.1
    cases f with
    | nil =>
      rw [List.getD] at hd
      exact absurd hd (by decide)
    | cons u t =>
      have hu : (u :: t).getD 0 0 = u := rfl
      rw [hu] at hd
      rw [isDigit, Bool.and_eq_true, decide_eq_true_eq, decide_eq_true_eq] at hd
      exact ⟨u, t.take 9, rfl, hd.1, hd.2⟩
  next hc => exact absurd rfl h

theorem lexOrdU_unknown_gt (u : Nat) (t : Str) (h1 : 48 ≤ u) (h2 : u ≤ 57) :
    lexOrdU UNKNOWN_DATE (u :: t) = Ordering.gt := by
  have e : UNKNOWN_DATE = 26410 :: 30693 :: 26085 :: 26399 :: [] := by decide
  rw [e, lexOrdU]
  rw [if_neg (by omega), if_pos (by omega)]

theorem cmpSpec_of_le (fa fb : Str) (h : compareFileDateDesc fa fb ≤ 0) :
    (safeDateFromName fa = safeDateFromName fb ∧ localeCompareM fb fa ≤ 0) ∨
    lexOrdU (safeDateFromName fb) (safeDateFromName fa) = Ordering.lt := by
  rw [compareFileDateDesc] at h
  by_cases e : safeDateFromName fa = safeDateFromName fb
  · rw [if_neg (by simp [e])] at h
    exact Or.inl ⟨e, h⟩
  · rw [if_pos e] at h
    rcases (localeCompareM_le_iff _ _).1 h with hx | hx
    · exact Or.inr hx
    · exact absurd hx.symm e

theorem unknown_first_of_le (fa fb : Str) (h : compareFileDateDesc fa fb ≤ 0)
    (hb : safeDateFromName fb = UNKNOWN_DATE) : safeDateFromName fa = UNKNOWN_DATE := by
  by_contra hna
  obtain ⟨u, t, he, h1, h2⟩ := safeDateFromName_digit_head fa hna
  rcases cmpSpec_of_le fa fb h with ⟨he2, _⟩ | hlt
  · exact hna (he2.trans hb)
  · rw [hb, he] at hlt
    rw [lexOrdU_unknown_gt u t h1 h2] at hlt
    exact absurd hlt (by decide)

theorem pairwise_getAllOss (channel : ReportChannel) (config : OssRuntimeConfig)
    (env : Env) : (getAllOssReportsInternal channel config env).Pairwise metaR := by
  rw [getAllOssReportsInternal.eq_def]
  cases h : env.fetchIndex (withNoCacheParam config.indexUrl env.nowQueryStr) with
  | ok items =>
    haveI : IsTotal RMeta metaR := ⟨metaR_total⟩
    haveI : IsTrans RMeta metaR := ⟨metaR_trans⟩
    exact List.sorted_insertionSort metaR _
  | netError => exact List.Pairwise.nil
  | badStatus => exact List.Pairwise.nil
  | badJson => exact List.Pairwise.nil

theorem getAllReports_pairwise (env : Env) (channel : ReportChannel) :
    (getAllReports env channel).Pairwise
      (fun a b => compareFileDateDesc a.fileName b.fileName ≤ 0) := by
  rw [getAllReports]
  cases hc : env.ossConfig channel with
  | some config =>
    rw [List.pairwise_map]
    exact (pairwise_getAllOss channel config env).imp (fun hab => hab)
  | none =>
    rw [getAllLocalReportsInternal, List.pairwise_map, List.pairwise_map]
    haveI : IsTotal LocalFile localFileR := ⟨localFileR_total⟩
    haveI : IsTrans LocalFile localFileR := ⟨localFileR_trans⟩
    exact (List.sorted_insertionSort localFileR _).imp (fun hab => hab)

/-! ## Resolution lemmas -/

theorem searchChannels_eq_head (env : Env) (f : Str) : ∀ (chans : List ReportChannel),
    searchChannels env f chans =
      (chans.filterMap (fun c => (findReportMetaInChannel env f c).bind
        (toReportDetail env))).head?
  | [] => rfl
  | c :: rest => by
    rw [searchChannels, List.filterMap_cons]
    cases hf : findReportMetaInChannel env f c with
    | none =>
      exact searchChannels_eq_head env f rest
    | some m =>
      cases hd : toReportDetail env m with
      | none =>
        simp only [Option.some_bind, hd]
        exact searchChannels_eq_head env f rest
      | some d =>
        simp only [Option.some_bind, hd, List.head?_cons]

/-! ## The claims -/

/-- C1: for every valid basename (a well-formed UTF-16 string with no path
separator), decoding its encoding returns it exactly:
`fromSlug (toSlug f) = some f`. -/
theorem claim_c1_roundtrip (s : Str) (hwf : wfUtf16 s = true) (hsep : ¬ 47 ∈ s) :
    fromSlug (toSlug s) = some s := by
  have hbase : ¬ 47 ∈ s := hsep
  rw [fromSlug, fromSlugStr_toSlug s hwf]

theorem claim_c1_roundtrip_witness :
    wfUtf16 (strU "a.md") = true ∧ ¬ 47 ∈ strU "a.md" ∧
    fromSlug (toSlug (strU "a.md")) = some (strU "a.md") :=
  ⟨by decide, by decide, claim_c1_roundtrip _ (by decide) (by decide)⟩

/-- C2: whenever the decoded text of an identifier is not its own basename (it
contains a separator or otherwise names a different path), `getReportBySlug`
returns `none` for every environment — in particular the decoded value reaches no
file or URL operation. -/
theorem claim_c2_traversal_rejected (env : Env) (slug : Str)
    (preferred : Option ReportChannel)
    (h : basename (fromSlugStr slug) ≠ fromSlugStr slug) :
    getReportBySlug env slug preferred = none := by
  rw [getReportBySlug, fromSlug]
  show (if (fromSlugStr slug).isEmpty ||
        !(basename (fromSlugStr slug) == fromSlugStr slug) ||
        !isReportLikeMarkdown (fromSlugStr slug) then none
      else searchChannels env (fromSlugStr slug) (getChannelSearchOrder preferred)) = none
  have hb : (basename (fromSlugStr slug) == fromSlugStr slug) = false := by
    rw [beq_eq_false_iff_ne]
    exact h
  rw [hb]
  simp

theorem claim_c2_traversal_rejected_witness :
    basename (fromSlugStr (toSlug (strU "a/b.md"))) ≠ fromSlugStr (toSlug (strU "a/b.md")) ∧
    getReportBySlug emptyEnv (toSlug (strU "a/b.md")) none = none :=
  ⟨by decide, claim_c2_traversal_rejected emptyEnv _ none (by decide)⟩

/-- C5: for a valid identifier, `getReportBySlug` returns the detail of the first
channel in search order for which both the summary and the content succeed — a
channel whose summary is found but whose content fails is skipped and the remaining
channels are still tried — and it returns `none` exactly when no channel yields
both; by construction every returned detail carries content. -/
theorem claim_c5_first_full_success (env : Env) (slug : Str)
    (preferred : Option ReportChannel) (fileName : Str)
    (hdec : fromSlugStr slug = fileName)
    (hne : fileName.isEmpty = false)
    (hbase : basename fileName = fileName)
    (hqual : isReportLikeMarkdown fileName = true) :
    getReportBySlug env slug preferred =
      ((getChannelSearchOrder preferred).filterMap
        (fun c => (findReportMetaInChannel env fileName c).bind
          (toReportDetail env))).head? := by
  rw [getReportBySlug, fromSlug, hdec]
  show (if fileName.isEmpty || !(basename fileName == fileName) ||
        !isReportLikeMarkdown fileName then none
      else searchChannels env fileName (getChannelSearchOrder preferred)) = _
  have hb : (basename fileName == fileName) = true := by
    rw [beq_iff_eq]
    exact hbase
  rw [hne, hb, hqual]
  simp only [Bool.not_true, Bool.or_false, Bool.false_or, if_false]
  exact searchChannels_eq_head env fileName _

theorem claim_c5_first_full_success_witness :
    fromSlugStr (toSlug fileName5) = fileName5 ∧
    fileName5.isEmpty = false ∧
    basename fileName5 = fileName5 ∧
    isReportLikeMarkdown fileName5 = true ∧
    getReportBySlug env5 (toSlug fileName5) none =
      ((getChannelSearchOrder none).filterMap
        (fun c => (findReportMetaInChannel env5 fileName5 c).bind
          (toReportDetail env5))).head? :=
  ⟨by decide, by decide, by decide, by decide,
    claim_c5_first_full_success env5 _ none fileName5 (by decide) (by decide) (by decide)
      (by decide)⟩

/-- C7: with a remote configuration present, a failing index fetch (network error,
non-OK status, or malformed JSON) makes `getAllReports` return the empty list — it
cannot throw (the function is total), and the local directories are never
consulted. -/
theorem claim_c7_remote_failure_empty (env : Env) (channel : ReportChannel)
    (config : OssRuntimeConfig)
    (hcfg : env.ossConfig channel = some config)
    (hfail : env.fetchIndex (withNoCacheParam config.indexUrl env.nowQueryStr) =
        .netError ∨
      env.fetchIndex (withNoCacheParam config.indexUrl env.nowQueryStr) = .badStatus ∨
      env.fetchIndex (withNoCacheParam config.indexUrl env.nowQueryStr) = .badJson) :
    getAllReports env channel = [] := by
  rw [getAllReports, hcfg]
  show (getAllOssReportsInternal channel config env).map toPublicMeta = []
  rcases hfail with h | h | h <;> rw [getAllOssReportsInternal.eq_def, h] <;> rfl

theorem claim_c7_remote_failure_empty_witness :
    env7.ossConfig .ai = some cfgAi ∧
    env7.fetchIndex (withNoCacheParam cfgAi.indexUrl env7.nowQueryStr) = .netError ∧
    env7.dir0.length = 1 ∧
    getAllReports env7 .ai = [] :=
  ⟨rfl, rfl, rfl,
    claim_c7_remote_failure_empty env7 .ai cfgAi rfl (Or.inl rfl)⟩

/-- C3 (amended): every list returned by `getAllReports` is ordered by date
descending with filename-descending tie-break for equal date keys; entries whose
filename has no parseable leading ISO date carry the unknown-date sentinel, which
compares greater than every ISO date, so they sort with HIGHEST priority (before
all entries with parseable dates), not lowest. -/
theorem claim_c3_ordering (env : Env) (channel : ReportChannel) :
    (getAllReports env channel).Pairwise (fun a b =>
      (safeDateFromName a.fileName = safeDateFromName b.fileName ∧
        localeCompareM b.fileName a.fileName ≤ 0) ∨
      lexOrdU (safeDateFromName b.fileName) (safeDateFromName a.fileName) =
        Ordering.lt) ∧
    (getAllReports env channel).Pairwise (fun a b =>
      safeDateFromName b.fileName = UNKNOWN_DATE →
        safeDateFromName a.fileName = UNKNOWN_DATE) := by
  constructor
  · exact (getAllReports_pairwise env channel).imp (fun h => cmpSpec_of_le _ _ h)
  · exact (getAllReports_pairwise env channel).imp
      (fun h hb => unknown_first_of_le _ _ h hb)

/-- C3 (counterexample to the claim as stated): with reports dated `2024-01-02`,
`2024-01-03` and one unparseable one, the returned order puts the
unparseable-date entry FIRST, not last as the claim demands. -/
theorem claim_c3_counterexample :
    (getAllReports env3 .ai).map (fun m => m.fileName) =
      [strU "nodate.md", strU "2024-01-03 - a.md", strU "2024-01-02 - a.md"] ∧
    safeDateFromName (strU "nodate.md") = UNKNOWN_DATE := by
  constructor
  · decide
  · decide

theorem ossItemOfRaw_qualified (channel : ReportChannel) (config : OssRuntimeConfig)
    (raw : Option RawItem) (m : RMeta)
    (h : ossItemOfRaw channel config raw = some m) :
    isReportLikeMarkdown m.fileName = true := by
  cases raw with
  | none => exact absurd h (by simp [ossItemOfRaw])
  | some entry =>
    simp only [ossItemOfRaw] at h
    split at h
    next => exact absurd h (by simp)
    next hc =>
      rw [Option.some.injEq] at h
      subst h
      have hc' := Bool.eq_false_iff.2 hc
      rw [Bool.or_eq_false_iff, Bool.not_eq_false'] at hc'
      exact hc'.2

theorem mem_getAllOss_qualified (channel : ReportChannel) (config : OssRuntimeConfig)
    (env : Env) (m : RMeta) (h : m ∈ getAllOssReportsInternal channel config env) :
    isReportLikeMarkdown m.fileName = true := by
  rw [getAllOssReportsInternal.eq_def] at h
  revert h
  cases hf : env.fetchIndex (withNoCacheParam config.indexUrl env.nowQueryStr) with
  | ok items =>
    intro h
    rw [List.mem_insertionSort] at h
    rw [List.mem_filterMap] at h
    obtain ⟨raw, _, hr⟩ := h
    exact ossItemOfRaw_qualified channel config raw m hr
  | netError => intro h; exact absurd h (by simp)
  | badStatus => intro h; exact absurd h (by simp)
  | badJson => intro h; exact absurd h (by simp)

/-- C4 (amended): every summary returned by `getAllReports` has a fileName ending
in `.md` and free of both exclusion markers; the channel-marker requirement holds
on the local path (no remote configuration), but the remote-index path never
checks it. -/
theorem claim_c4_qualification (env : Env) (channel : ReportChannel) (m : PubMeta)
    (h : m ∈ getAllReports env channel) :
    (strU ".md").isSuffixOf m.fileName = true ∧
    strContains m.fileName WECHAT_MARKER = false ∧
    strContains m.fileName MATERIAL_MARKER = false ∧
    (env.ossConfig channel = none → matchChannelFileName m.fileName channel = true) := by
  have key : isReportLikeMarkdown m.fileName = true ∧
      (env.ossConfig channel = none → matchChannelFileName m.fileName channel = true) := by
    rw [getAllReports] at h
    revert h
    cases hc : env.ossConfig channel with
    | some config =>
      intro h
      rw [List.mem_map] at h
      obtain ⟨meta, hmem, hpub⟩ := h
      have := mem_getAllOss_qualified channel config env meta hmem
      rw [← hpub]
      exact ⟨this, fun hn => absurd hn (by simp)⟩
    | none =>
      intro h
      rw [List.mem_map] at h
      obtain ⟨meta, hmem, hpub⟩ := h
      rw [getAllLocalReportsInternal] at hmem
      rw [List.mem_map] at hmem
      obtain ⟨f, hf, hbuild⟩ := hmem
      rw [List.mem_insertionSort, List.mem_filter, Bool.and_eq_true] at hf
      rw [← hpub, ← hbuild]
      exact ⟨hf.2.1, fun _ => hf.2.2⟩
  rcases key with ⟨hq, hmarker⟩
  rw [isReportLikeMarkdown] at hq
  simp only [Bool.and_eq_true, Bool.not_eq_true'] at hq
  exact ⟨hq.1.1, hq.1.2, hq.2, hmarker⟩

theorem claim_c4_qualification_witness :
    m4 ∈ getAllReports env4 .ai ∧
    ((strU ".md").isSuffixOf m4.fileName = true ∧
      strContains m4.fileName WECHAT_MARKER = false ∧
      strContains m4.fileName MATERIAL_MARKER = false ∧
      (env4.ossConfig .ai = none → matchChannelFileName m4.fileName .ai = true)) :=
  ⟨by decide, claim_c4_qualification env4 .ai m4 (by decide)⟩

/-- C4 (counterexample to the claim as stated): on the remote-index path a file
without the channel marker is still returned for that channel. -/
theorem claim_c4_counterexample :
    (getAllReports env4 .ai).map (fun m => m.fileName) = [strU "foo.md"] ∧
    matchChannelFileName (strU "foo.md") .ai = false := by
  constructor
  · decide
  · decide

theorem filter_chain_eq (L : List Str) :
    ((((L.filter (fun l => !l.isEmpty)).filter
        (fun l => !((strU "[^").isPrefixOf l))).filter
        (fun l => !((strU "---").isPrefixOf l))).filter
        (fun l => !((strU "#").isPrefixOf l))).filter
        (fun l => !((strU ">").isPrefixOf l)) =
      L.filter (fun l =>
        !(l.isEmpty || (strU "#").isPrefixOf l || (strU ">").isPrefixOf l ||
          (strU "[^").isPrefixOf l || (strU "---").isPrefixOf l)) := by
  rw [List.filter_filter, List.filter_filter, List.filter_filter, List.filter_filter]
  apply List.filter_congr
  intro a _
  generalize a.isEmpty = b1
  generalize (strU "[^").isPrefixOf a = b2
  generalize (strU "---").isPrefixOf a = b3
  generalize (strU "#").isPrefixOf a = b4
  generalize (strU ">").isPrefixOf a = b5
  revert b1 b2 b3 b4 b5
  decide

/-- C6 (amended): `buildExcerpt` drops empty lines and lines starting with the
heading, blockquote, footnote or horizontal-rule markers, joins the first two
surviving trimmed lines with one space, strips the emphasis characters, and
truncates to at most 160 UTF-16 code units — a cap in code units, which can cut a
surrogate pair in half — returning the fixed placeholder when no line survives. -/
theorem claim_c6_excerpt (text : Str) :
    buildExcerpt text = excerptSpec text ∧
    (buildExcerpt text).length ≤ 160 ∧
    (specSurvivingLines text = [] → buildExcerpt text = NO_EXCERPT) := by
  have hl : ((((((text.splitOn 10).map jsTrim).filter (fun l => !l.isEmpty)).filter
      (fun l => !((strU "[^").isPrefixOf l))).filter
      (fun l => !((strU "---").isPrefixOf l))).filter
      (fun l => !((strU "#").isPrefixOf l))).filter
      (fun l => !((strU ">").isPrefixOf l)) = specSurvivingLines text := by
    rw [specSurvivingLines]
    exact filter_chain_eq _
  have hmain : buildExcerpt text = excerptSpec text := by
    simp only [buildExcerpt]
    rw [hl, excerptSpec.eq_def]
    cases hs : specSurvivingLines text with
    | nil => rfl
    | cons x xs => rfl
  refine ⟨hmain, ?_, ?_⟩
  · rw [hmain, excerptSpec.eq_def]
    cases specSurvivingLines text with
    | nil => decide
    | cons x xs => exact List.length_take_le 160 _
  · intro hempty
    rw [hmain, excerptSpec.eq_def, hempty]

/-- C6 (counterexample to the claim as stated): a well-formed document of 159 ASCII
units followed by an emoji is truncated to exactly 160 code units, splitting the
emoji's surrogate pair — the output ends in a lone high surrogate, i.e. a
multi-byte character was cut mid-sequence. -/
theorem claim_c6_counterexample :
    wfUtf16 doc6 = true ∧
    (buildExcerpt doc6).length = 160 ∧
    wfUtf16 (buildExcerpt doc6) = false := by
  refine ⟨by decide, by decide, by decide⟩

/-! ## The deletion scan -/

theorem scanRemove_cons (f o : Str) (it : IdxItem) (rest : List IdxItem) :
    scanRemove f o (it :: rest) =
      if (o.isEmpty && (jsTrim (strOfField it.fileName) == f)) = true then
        scanRemove f (jsTrim (strOfField it.objectName)) rest
      else ((scanRemove f o rest).1, it :: (scanRemove f o rest).2) := rfl

theorem scanRemove_nonempty (f o : Str) (ho : o.isEmpty = false) :
    ∀ (items : List IdxItem), scanRemove f o items = (o, items)
  | [] => rfl
  | it :: rest => by
    rw [scanRemove_cons, if_neg (by rw [ho, Bool.false_and]; exact Bool.false_ne_true),
      scanRemove_nonempty f o ho rest]

theorem scanRemove_no_match (f : Str) :
    ∀ (items : List IdxItem), (∀ it ∈ items, idxMatches f it = false) →
      scanRemove f [] items = ([], items)
  | [] => fun _ => rfl
  | it :: rest => fun h => by
    have hm : (jsTrim (strOfField it.fileName) == f) = false := by
      have h1 := h it (List.mem_cons_self it rest)
      simpa only [idxMatches] using h1
    rw [scanRemove_cons, if_neg (by rw [hm, Bool.and_false]; exact Bool.false_ne_true),
      scanRemove_no_match f rest (fun x hx => h x (List.mem_cons_of_mem it hx))]

theorem scanRemove_single (f : Str) :
    ∀ (items : List IdxItem) (m : IdxItem),
      items.find? (idxMatches f) = some m →
      (items.filter (idxMatches f)).length = 1 →
      scanRemove f [] items = (jsTrim (strOfField m.objectName),
        items.filter (fun it => !(idxMatches f it)))
  | [], m => fun hfind _ => by simp at hfind
  | it :: rest, m => fun hfind hcount => by
    by_cases hm : idxMatches f it = true
    · rw [List.find?_cons_of_pos rest hm] at hfind
      injection hfind with him
      rw [List.filter_cons_of_pos hm, List.length_cons] at hcount
      have hzero : (rest.filter (idxMatches f)).length = 0 := by omega
      have hrest : ∀ x ∈ rest, idxMatches f x = false := by
        intro x hx
        have h2 := (List.filter_eq_nil_iff).1 (List.length_eq_zero.1 hzero) x hx
        rwa [Bool.not_eq_true] at h2
      have hmatch : (jsTrim (strOfField it.fileName) == f) = true := by
        simpa only [idxMatches] using hm
      rw [scanRemove_cons, if_pos (by rw [hmatch]; rfl)]
      rw [← him]
      rw [List.filter_cons_of_neg (by simp [hm])]
      rw [List.filter_eq_self.2 (fun x hx => by simp [hrest x hx])]
      by_cases ho : (jsTrim (strOfField it.objectName)).isEmpty = true
      · rw [List.isEmpty_iff.1 ho]
        exact scanRemove_no_match f rest hrest
      · exact scanRemove_nonempty f _ (Bool.eq_false_iff.2 ho) rest
    · have hmf : idxMatches f it = false := Bool.eq_false_iff.2 hm
      rw [List.find?_cons_of_neg rest hm] at hfind
      rw [List.filter_cons_of_neg hm] at hcount
      have hmatch : (jsTrim (strOfField it.fileName) == f) = false := by
        simpa only [idxMatches] using hmf
      rw [scanRemove_cons, if_neg (by rw [hmatch, Bool.and_false]; exact Bool.false_ne_true)]
      rw [scanRemove_single f rest m hfind hcount]
      rw [List.filter_cons_of_pos (by simp [hmf])]

/-! ## Outcome lemmas for the store operations -/

theorem loadIndexItems_parsed (wire : OssWire) (objectName gbody : Str)
    (items : List IdxItem)
    (hne : (canonicalObjectName objectName).isEmpty = false)
    (hget : wire.getOutcome (canonicalObjectName objectName) =
      .status 200 gbody (some (items.map some))) :
    loadIndexItems wire objectName = .ok items := by
  have hsg : signedGet wire objectName = .ok (200, gbody, some (items.map some)) := by
    simp only [signedGet]
    rw [if_neg (by rw [hne]; exact Bool.false_ne_true), hget]
    rfl
  have hfm : ((items.map some).filterMap id) = items := by
    rw [List.filterMap_map]
    exact List.filterMap_some items
  rw [loadIndexItems.eq_def, hsg]
  show Except.ok ((items.map some).filterMap id) = .ok items
  rw [hfm]

theorem deleteObjectM_ok (wire : OssWire) (objectName : Str)
    (hne : (canonicalObjectName objectName).isEmpty = false)
    (h : delOk (wire.delOutcome (canonicalObjectName objectName))) :
    deleteObjectM wire objectName = .ok () := by
  simp only [deleteObjectM]
  rw [if_neg (by rw [hne]; exact Bool.false_ne_true)]
  cases ho : wire.delOutcome (canonicalObjectName objectName) with
  | netError => rw [ho] at h; simp only [delOk] at h
  | status code body =>
    rw [ho] at h
    simp only [delOk] at h
    show (if (code == 404) = true then Except.ok ()
          else if respOk code = true then Except.ok ()
          else Except.error (OssFail.httpFail code ((jsTrim body).take 500))) = Except.ok ()
    by_cases h4 : (code == 404) = true
    · rw [if_pos h4]
    · rw [if_neg h4]
      rcases h with h | h
      · exact absurd (by rw [h]; rfl) h4
      · rw [if_pos h]

theorem putJsonObjectM_ok (wire : OssWire) (objectName : Str)
    (hne : (canonicalObjectName objectName).isEmpty = false)
    (h : putOk (wire.putOutcome (canonicalObjectName objectName))) :
    putJsonObjectM wire objectName = .ok () := by
  simp only [putJsonObjectM]
  rw [if_neg (by rw [hne]; exact Bool.false_ne_true)]
  cases ho : wire.putOutcome (canonicalObjectName objectName) with
  | netError => rw [ho] at h; simp only [putOk] at h
  | status code body =>
    rw [ho] at h
    simp only [putOk] at h
    show (if respOk code = true then Except.ok ()
          else Except.error (OssFail.httpFail code ((jsTrim body).take 500))) = Except.ok ()
    rw [if_pos h]

theorem putJsonObjectM_fails (wire : OssWire) (objectName : Str)
    (h : putFails (wire.putOutcome (canonicalObjectName objectName))) :
    ∃ e, putJsonObjectM wire objectName = .error e := by
  by_cases hne : (canonicalObjectName objectName).isEmpty = true
  · exact ⟨.emptyObjectName, by simp only [putJsonObjectM]; rw [if_pos hne]⟩
  · cases ho : wire.putOutcome (canonicalObjectName objectName) with
    | netError =>
      exact ⟨.transport, by
        simp only [putJsonObjectM]
        rw [if_neg hne, ho]⟩
    | status code body =>
      rw [ho] at h
      simp only [putFails] at h
      exact ⟨.httpFail code ((jsTrim body).take 500), by
        simp only [putJsonObjectM]
        rw [if_neg hne, ho]
        show (if respOk code = true then Except.ok ()
              else Except.error (OssFail.httpFail code ((jsTrim body).take 500))) =
          Except.error (OssFail.httpFail code ((jsTrim body).take 500))
        rw [if_neg (by rw [h]; exact Bool.false_ne_true)]⟩

/-- C8: when the rewrite (PUT) of the updated index document cannot succeed,
`deleteFromOss` propagates the failure and the DELETE request is answered with
`ok := false` and HTTP 500, never as success. -/
theorem claim_c8_put_failure_propagates (wire : OssWire) (config : OssConfig)
    (nowIso slug fileName : Str)
    (hcfg : isOssConfigured config = true)
    (hslug : decodeSlug slug = some fileName)
    (hput : ∀ n, putFails (wire.putOutcome n)) :
    (∃ e, deleteFromOss wire config nowIso fileName = .error e) ∧
    (handleDeleteReport wire config nowIso slug).ok = false ∧
    (handleDeleteReport wire config nowIso slug).status = 500 := by
  have herr : ∃ e, deleteFromOss wire config nowIso fileName = .error e := by
    simp only [deleteFromOss]
    rw [if_neg (by rw [hcfg]; exact Bool.false_ne_true)]
    cases hli : loadIndexItems wire (buildIndexObjectName config.prefixStr) with
    | error e => exact ⟨e, rfl⟩
    | ok items =>
      show ∃ err, delStep2 wire config nowIso fileName items = Except.error err
      simp only [delStep2]
      cases hdo : deleteObjectM wire (chosenObject config fileName items) with
      | error e => exact ⟨e, rfl⟩
      | ok u =>
        obtain ⟨e, hp⟩ := putJsonObjectM_fails wire (buildIndexObjectName config.prefixStr)
          (hput _)
        exact ⟨e, by rw [hp]⟩
  obtain ⟨e, he⟩ := herr
  refine ⟨⟨e, he⟩, ?_, ?_⟩
  · simp only [handleDeleteReport, hslug, he]
  · simp only [handleDeleteReport, hslug, he]

theorem claim_c8_put_failure_propagates_witness :
    isOssConfigured config8 = true ∧
    decodeSlug (toSlug (strU "A.md")) = some (strU "A.md") ∧
    ((∃ e, deleteFromOss wire8 config8 (strU "now") (strU "A.md") = .error e) ∧
      (handleDeleteReport wire8 config8 (strU "now") (toSlug (strU "A.md"))).ok = false ∧
      (handleDeleteReport wire8 config8 (strU "now") (toSlug (strU "A.md"))).status = 500) :=
  ⟨by decide, by decide,
    claim_c8_put_failure_propagates wire8 config8 (strU "now") (toSlug (strU "A.md"))
      (strU "A.md") (by decide) (by decide) (fun _ => trivial)⟩

/-- C9 (amended): deleting a fileName matched by exactly one entry of the loaded
remote index sends a DELETE for the underlying object (tolerating an already-absent
object: the store hypothesis admits a 404 answer) and rewrites the index as a full
overwrite whose items are exactly the previous items minus the matching entry,
re-sorted by filename descending, with refreshed generation timestamp and count.
The uniqueness hypothesis is needed: when several entries match and the first match
carries no object name, the scan removes more than one entry. -/
theorem claim_c9_deletion_rewrite (wire : OssWire) (config : OssConfig)
    (nowIso fileName gbody : Str) (items : List IdxItem) (m : IdxItem)
    (hcfg : isOssConfigured config = true)
    (hidx : (canonicalObjectName (buildIndexObjectName config.prefixStr)).isEmpty = false)
    (hget : wire.getOutcome (canonicalObjectName (buildIndexObjectName config.prefixStr)) =
      .status 200 gbody (some (items.map some)))
    (hfind : items.find? (idxMatches fileName) = some m)
    (hcount : (items.filter (idxMatches fileName)).length = 1)
    (htgt : (canonicalObjectName (deleteTarget config fileName m)).isEmpty = false)
    (hdel : delOk (wire.delOutcome (canonicalObjectName (deleteTarget config fileName m))))
    (hput : putOk (wire.putOutcome (canonicalObjectName (buildIndexObjectName config.prefixStr)))) :
    deleteFromOss wire config nowIso fileName =
      .ok { objectName := some (deleteTarget config fileName m),
            indexUpdated := true,
            deletedObject := some (canonicalObjectName (deleteTarget config fileName m)),
            putIndex := some (canonicalObjectName (buildIndexObjectName config.prefixStr),
              { generatedAt := nowIso,
                count := (List.insertionSort idxR
                  (items.filter (fun it => !(idxMatches fileName it)))).length,
                prefixStr := config.prefixStr,
                items := List.insertionSort idxR
                  (items.filter (fun it => !(idxMatches fileName it))) }) } := by
  have hscan := scanRemove_single fileName items m hfind hcount
  have hco : chosenObject config fileName items = deleteTarget config fileName m := by
    simp only [chosenObject, deleteTarget, hscan]
  have hnp : nextPayload config nowIso fileName items =
      { generatedAt := nowIso,
        count := (List.insertionSort idxR
          (items.filter (fun it => !(idxMatches fileName it)))).length,
        prefixStr := config.prefixStr,
        items := List.insertionSort idxR
          (items.filter (fun it => !(idxMatches fileName it))) } := by
    simp only [nextPayload, hscan]
  have hli : loadIndexItems wire (buildIndexObjectName config.prefixStr) = .ok items :=
    loadIndexItems_parsed wire _ gbody items hidx hget
  have hdo : deleteObjectM wire (chosenObject config fileName items) = .ok () := by
    rw [hco]
    exact deleteObjectM_ok wire _ htgt hdel
  have hpo : putJsonObjectM wire (buildIndexObjectName config.prefixStr) = .ok () :=
    putJsonObjectM_ok wire _ hidx hput
  simp only [deleteFromOss, hli, delStep2, hdo, hpo]
  rw [if_neg (by rw [hcfg]; exact Bool.false_ne_true), hco, hnp]

theorem claim_c9_deletion_rewrite_witness :
    deleteFromOss wire9 config8 (strU "now") (strU "A.md") =
      .ok { objectName := some (deleteTarget config8 (strU "A.md") itemA9),
            indexUpdated := true,
            deletedObject :=
              some (canonicalObjectName (deleteTarget config8 (strU "A.md") itemA9)),
            putIndex := some (canonicalObjectName (buildIndexObjectName config8.prefixStr),
              { generatedAt := strU "now",
                count := (List.insertionSort idxR
                  (items9.filter (fun it => !(idxMatches (strU "A.md") it)))).length,
                prefixStr := config8.prefixStr,
                items := List.insertionSort idxR
                  (items9.filter (fun it => !(idxMatches (strU "A.md") it))) }) } :=
  claim_c9_deletion_rewrite wire9 config8 (strU "now") (strU "A.md") [] items9 itemA9
    (by decide) (by decide) rfl (by decide) (by decide) (by decide) (Or.inl rfl) rfl

theorem claim_c9_counterexample :
    putItemsOf (deleteFromOss wire9x config8 (strU "now") (strU "A.md")) = some [] ∧
    items9x.length = 2 ∧
    (∀ it ∈ items9x, idxMatches (strU "A.md") it = true) := by
  refine ⟨by decide, by decide, by decide⟩

/-- C10: slug decoding is lenient, so accepted identifiers are not canonical: the
distinct slugs `slug10a` and `slug10b` (the latter padded with `==`, which the
decoder silently drops) both decode to the same valid filename, `getReportBySlug`
resolves both to the same existing report, and re-encoding the decoded filename does
not reproduce the padded identifier. -/
theorem claim_c10_non_canonical_identifiers :
    slug10a ≠ slug10b ∧
    fromSlug slug10a = some fileName10 ∧
    fromSlug slug10b = some fileName10 ∧
    getReportBySlug env10 slug10a none = getReportBySlug env10 slug10b none ∧
    (getReportBySlug env10 slug10a none).isSome = true ∧
    toSlug (fromSlugStr slug10b) ≠ slug10b := by
  refine ⟨by decide, by decide, by decide, by decide, by decide, by decide⟩

end DailyNews
